import Mathlib

/-!
Verification of the karton-dashboard core against its specification.

The development shallowly embeds the two algorithmic components of the
repository: the state aggregator (`KartonState.__init__` in `src/app.py`
together with the presentation layer `QueueView.to_dict` /
`get_queue_api` / `get_analysis_api` / `varz` in
`karton/dashboard/app.py`) and the routing-graph builder
(`karton/dashboard/graph/graph.py`).  Python dictionaries are embedded as
insertion-ordered association lists, Python `sorted` as the stable
`List.mergeSort`, and fallible code as `Option`.
-/

namespace Karton

variable {κ : Type} [DecidableEq κ] {α : Type}

/-! ### Association lists (Python `dict` with insertion order) -/

/-- First-match lookup in an association list, `d.get(k)` on a dict. -/
def alookup : List (κ × α) → κ → Option α
  | [], _ => none
  | p :: ps, k => if p.1 = k then some p.2 else alookup ps k

/-- Apply `f` to the value stored at key `k` (mutation of `d[k]` in place). -/
def aupdate (l : List (κ × α)) (k : κ) (f : α → α) : List (κ × α) :=
  l.map fun p => if p.1 = k then (p.1, f p.2) else p

/-- Assignment `d[k] = v`: overwrite in place if present, else append. -/
def assocSet (l : List (κ × α)) (k : κ) (v : α) : List (κ × α) :=
  if (alookup l k).isSome then aupdate l k fun _ => v else l ++ [(k, v)]

/-! ### Task data model

`TaskData` is the slice of the serialized task JSON that the dashboard
reads: `uid`, `root_uid`, `headers["receiver"]` (optional), `status`,
`priority`, `last_update`.  `TaskState` and `TaskPriority` follow
`karton.core.task`. -/

inductive TaskState where
  | declared
  | spawned
  | started
  | finished
  | crashed
deriving DecidableEq, Repr

/-- String value of the enum member, as used by `status.value` in `varz`. -/
def TaskState.value : TaskState → String
  | .declared => "Declared"
  | .spawned => "Spawned"
  | .started => "Started"
  | .finished => "Finished"
  | .crashed => "Crashed"

inductive TaskPriority where
  | high
  | normal
  | low
deriving DecidableEq, Repr

/-- String value of the enum member, as used by `priority.value` in `varz`. -/
def TaskPriority.value : TaskPriority → String
  | .high => "high"
  | .normal => "normal"
  | .low => "low"

structure TaskData where
  uid : String
  root_uid : String
  receiver : Option String
  status : TaskState
  priority : TaskPriority
  last_update : Int
deriving DecidableEq, Repr

/-! ### State aggregation (`KartonState.__init__` in `src/app.py`) -/

/-- One filter object: a mapping of payload-field to expected value
(`Filters = Dict[str, str]`). -/
abbrev FilterDict := List (String × String)

/-- Value stored under an identity in the `karton.binds` hash: either the
v2.2.0-compatibility plain filter list or the full registration object. -/
inductive Registration where
  | compat (filters : List FilterDict)
  | full (filters : List FilterDict) (info : Option String)
      (persistent : Bool) (version : String)
deriving DecidableEq, Repr

structure Queue where
  name : String
  tasks : List TaskData
  crashed : List TaskData
  binds : List FilterDict
  raw_description : Option String
  persistent : Bool
  version : String
  replicas : Nat
deriving DecidableEq, Repr

/-- Constructor `Queue.__init__` of `src/app.py`. -/
def Queue.init (name : String) (registration : Registration) : Queue :=
  match registration with
  | .compat filters =>
      { name := name, tasks := [], crashed := [], binds := filters,
        raw_description := none, persistent := !(name.endsWith ".test"),
        version := "2.x.x", replicas := 0 }
  | .full filters info persistent version =>
      { name := name, tasks := [], crashed := [], binds := filters,
        raw_description := info, persistent := persistent,
        version := version, replicas := 0 }

/-- Fields of the JSON object produced by `Queue.to_dict` in `src/app.py`. -/
structure QueueDict where
  identity : String
  filters : List FilterDict
  description : Option String
  persistent : Bool
  version : String
  replicas : Nat
  tasks : List String
  crashed : List String
deriving DecidableEq, Repr

/-- Method `Queue.to_dict` of `src/app.py`: the task lists are emitted in
stored order, with no sorting step. -/
def Queue.to_dict (q : Queue) : QueueDict :=
  { identity := q.name, filters := q.binds, description := q.raw_description,
    persistent := q.persistent, version := q.version, replicas := q.replicas,
    tasks := q.tasks.map TaskData.uid,
    crashed := q.crashed.map TaskData.uid }

structure Analysis where
  rootid : String
  queues : List (String × List TaskData)
deriving DecidableEq, Repr

/-- Method `Analysis.add_task` of `src/app.py`: create the per-identity
list lazily, then append. -/
def Analysis.add_task (a : Analysis) (identity : String) (taskdata : TaskData) :
    Analysis :=
  if (alookup a.queues identity).isSome then
    { a with queues := aupdate a.queues identity fun tasks => tasks ++ [taskdata] }
  else
    { a with queues := a.queues ++ [(identity, [taskdata])] }

/-- In-memory snapshot assembled by `KartonState.__init__`. -/
structure KState where
  queues : List (String × Queue)
  analyses : List (String × Analysis)
deriving DecidableEq, Repr

/-- Read-only view of the backing store consumed by one
`KartonState.__init__` run: the `karton.binds` hash, the `mget` results
over all `karton.task:*` keys (a vanished record yields `none`), the
client list and the log queue length. -/
structure Store where
  log_queue_len : Nat
  binds : List (String × Registration)
  task_fetch : List (Option TaskData)
  client_list : List String
deriving Repr

/-- Lexicographic code-point comparison of character lists, the order
Python uses on strings. -/
def charListLe : List Char → List Char → Bool
  | [], _ => true
  | _ :: _, [] => false
  | a :: as, b :: bs =>
    if a.val < b.val then true
    else if b.val < a.val then false
    else charListLe as bs

/-- Python string comparison `a <= b`. -/
def strLe (a b : String) : Bool := charListLe a.toList b.toList

/-- Python `sorted(binds.items())`: a stable sort ordering the items by
their (unique) keys. -/
def sortedBinds (binds : List (String × Registration)) :
    List (String × Registration) :=
  binds.insertionSort fun a b => strLe a.1 b.1 = true

/-- Queue universe built from the binds before any task is examined. -/
def initQueues (binds : List (String × Registration)) : List (String × Queue) :=
  (sortedBinds binds).map fun p => (p.1, Queue.init p.1 p.2)

/-- Loop body of `KartonState.__init__` over one `mget` result: the four
skips (vanished record, missing `receiver` header, FINISHED status,
unknown queue) followed by the analysis append and the
pending-or-crashed routing. -/
def processTask (st : KState) (fetched : Option TaskData) : KState :=
  match fetched with
  | none => st
  | some taskdata =>
    match taskdata.receiver with
    | none => st
    | some queue_name =>
      if taskdata.status = TaskState.finished then st
      else if (alookup st.queues queue_name).isNone then st
      else
        let analyses :=
          if (alookup st.analyses taskdata.root_uid).isSome then
            aupdate st.analyses taskdata.root_uid fun a =>
              a.add_task queue_name taskdata
          else
            st.analyses ++
              [(taskdata.root_uid,
                (Analysis.mk taskdata.root_uid []).add_task queue_name taskdata)]
        let queues :=
          if taskdata.status = TaskState.crashed then
            aupdate st.queues queue_name fun q =>
              { q with crashed := q.crashed ++ [taskdata] }
          else
            aupdate st.queues queue_name fun q =>
              { q with tasks := q.tasks ++ [taskdata] }
        { queues := queues, analyses := analyses }

/-- Replica-counting loop over `client_list()`. -/
def countReplica (queues : List (String × Queue)) (queue_name : String) :
    List (String × Queue) :=
  if (alookup queues queue_name).isNone then queues
  else aupdate queues queue_name fun q => { q with replicas := q.replicas + 1 }

def countReplicas (queues : List (String × Queue)) (clients : List String) :
    List (String × Queue) :=
  clients.foldl countReplica queues

/-- Whole of `KartonState.__init__`: queue universe from binds, one pass
over the fetched task records, then replica counting. -/
def KartonState.build (store : Store) : KState :=
  let queues := initQueues store.binds
  let st := store.task_fetch.foldl processTask { queues := queues, analyses := [] }
  { st with queues := countReplicas st.queues store.client_list }

/-! ### Characterization of the queue lists built by the pass -/

/-- Records that the pass appends to `queues[r].tasks`. -/
def pendingOf (r : String) (ts : List (Option TaskData)) : List TaskData :=
  (ts.filterMap id).filter fun td =>
    decide (td.receiver = some r) && !decide (td.status = TaskState.finished)
      && !decide (td.status = TaskState.crashed)

/-- Records that the pass appends to `queues[r].crashed`. -/
def crashedOf (r : String) (ts : List (Option TaskData)) : List TaskData :=
  (ts.filterMap id).filter fun td =>
    decide (td.receiver = some r) && decide (td.status = TaskState.crashed)

/-! ### Characterization of the analyses built by the pass -/

/-- Number of copies of `td` stored under queue key `r` of analysis `a`. -/
def Analysis.countTask (a : Analysis) (r : String) (td : TaskData) : Nat :=
  ((alookup a.queues r).getD []).count td

/-- Number of copies of `td` stored under `analyses[R].queues[r]`. -/
def KState.countTask (st : KState) (R r : String) (td : TaskData) : Nat :=
  ((alookup st.analyses R).map fun a => a.countTask r td).getD 0

/-- Routing condition deciding whether one pass step stores `td` under
`analyses[td.root_uid].queues[r]` (receiver `r`, not FINISHED, known
queue). -/
def routesTo (st : KState) (r : String) (td : TaskData) : Prop :=
  td.receiver = some r ∧ td.status ≠ TaskState.finished ∧
    (alookup st.queues r).isSome

instance (st : KState) (r : String) (td : TaskData) :
    Decidable (routesTo st r td) := by
  unfold routesTo; infer_instance

/-! ### Well-formedness invariant of the analyses map -/

/-- Connection between an analysis object and its map key: the stored
root id matches the key, every queue list is nonempty and every stored
task carries the analysis root id. -/
def AnalysisWF (R : String) (a : Analysis) : Prop :=
  a.rootid = R ∧ ∀ ql ∈ a.queues, ql.2 ≠ [] ∧ ∀ t ∈ ql.2, t.root_uid = R

def AnalysesWF (analyses : List (String × Analysis)) : Prop :=
  ∀ p ∈ analyses, AnalysisWF p.1 p.2

/-! ### Dashboard presentation layer (`karton/dashboard/app.py`)

The current-generation routes read a `karton.core.inspect.KartonState`
(external library); its surface is modelled by `InspectQueue` /
`InspectAnalysis` values handed to the route bodies, which are repository
code. -/

/-- Python `sorted(tasks, key=lambda t: t.last_update, reverse=True)`: the
stable sort by `last_update` descending used by `QueueView.to_dict`
(`sorted` is specified as a stable sort; every stable sort of a total
preorder produces the same list). -/
def sortByLastUpdateDesc (tasks : List TaskData) : List TaskData :=
  tasks.insertionSort fun a b => b.last_update ≤ a.last_update

/-- Surface of the external `KartonQueue` consumed by `QueueView`. -/
structure InspectQueue where
  identity : String
  filters : List FilterDict
  info : Option String
  persistent : Bool
  version : String
  service_version : Option String
  online_consumers_count : Nat
  pending_tasks : List TaskData
  crashed_tasks : List TaskData
deriving DecidableEq, Repr

/-- Fields of the JSON object produced by `QueueView.to_dict`. -/
structure QueueViewDict where
  identity : String
  filters : List FilterDict
  description : Option String
  persistent : Bool
  version : String
  replicas : Nat
  service_version : Option String
  tasks : List String
  crashed : List String
deriving DecidableEq, Repr

/-- Method `QueueView.to_dict` of `karton/dashboard/app.py`: both task
lists are sorted by `last_update` descending before the ids are taken. -/
def QueueView.to_dict (q : InspectQueue) : QueueViewDict :=
  { identity := q.identity, filters := q.filters, description := q.info,
    persistent := q.persistent, version := q.version,
    replicas := q.online_consumers_count,
    service_version := q.service_version,
    tasks := (sortByLastUpdateDesc q.pending_tasks).map TaskData.uid,
    crashed := (sortByLastUpdateDesc q.crashed_tasks).map TaskData.uid }

/-- Outcome of a JSON API route: a payload or a 404 body. -/
inductive ApiResult (α : Type) where
  | ok (value : α)
  | notFound (error : String)
deriving DecidableEq, Repr

/-- Route `get_queue_api` of `karton/dashboard/app.py`. -/
def get_queue_api (queues : List (String × InspectQueue))
    (queue_name : String) : ApiResult QueueViewDict :=
  match alookup queues queue_name with
  | none => ApiResult.notFound "Queue doesn\x27t exist"
  | some queue => ApiResult.ok (QueueView.to_dict queue)

/-- Surface of the external `KartonAnalysis` consumed by the analysis
routes: `state.get_analysis(root_id)` always returns an object; absence
is detected through an empty `tasks` list. -/
structure InspectAnalysis where
  root_uid : String
  tasks : List TaskData
  pending_queues : List (String × InspectQueue)
deriving Repr

structure AnalysisViewDict where
  uid : String
  queues : List (String × List TaskData)
deriving DecidableEq, Repr

/-- Method `AnalysisView.to_dict` of `karton/dashboard/app.py`. -/
def AnalysisView.to_dict (a : InspectAnalysis) : AnalysisViewDict :=
  { uid := a.root_uid,
    queues := a.pending_queues.map fun p => (p.1, p.2.pending_tasks) }

/-- Route `get_analysis_api` of `karton/dashboard/app.py`. -/
def get_analysis_api (analysis : InspectAnalysis) :
    ApiResult AnalysisViewDict :=
  if analysis.tasks.isEmpty then ApiResult.notFound "Analysis doesn\x27t exist"
  else ApiResult.ok (AnalysisView.to_dict analysis)

/-- Route `/api/queues` of `src/app.py`: one `to_dict` per queue. -/
def get_queues_api_dict (store : Store) : List (String × QueueDict) :=
  (KartonState.build store).queues.map fun p => (p.1, Queue.to_dict p.2)

/-! ### Routing graph (`karton/dashboard/graph/graph.py`) -/

/-- Node of the routing graph (`KartonNode`); `filters` and `outputs`
stay `none` when the corresponding half was never declared. -/
structure KartonNode where
  identity : String
  metadata_version : String
  metadata_info : String
  filters : Option (List FilterDict)
  outputs : Option (List FilterDict)
deriving DecidableEq, Repr

/-- Method `KartonNode.filter_contained`: every key/value item of the
filter occurs in the output descriptor. -/
def filter_contained (filter output : FilterDict) : Bool :=
  filter.all fun item => decide (item ∈ output)

/-- Python truthiness of an optional list (None and `[]` are falsy). -/
def listTruthy (o : Option (List α)) : Bool :=
  match o with
  | none => false
  | some l => !l.isEmpty

/-- Method `KartonNode.__contains__`: `contains_node self other` is
Python `other in self` — some filter of `self` is contained in some
output of `other`. -/
def KartonNode.contains_node (self other : KartonNode) : Bool :=
  if listTruthy self.filters && listTruthy other.outputs then
    (self.filters.getD []).any fun filter =>
      (other.outputs.getD []).any fun output => filter_contained filter output
  else false

/-- First loop of `KartonGraph.create_graph`: `graph[identity] = set()`. -/
def initGraph (nodes : List KartonNode) : List (String × List String) :=
  nodes.foldl (fun g node => assocSet g node.identity []) []

/-- Python `self.graph[other.identity].add(node.identity)`; the set is
embedded as a deduplicating list. -/
def addConsumer (g : List (String × List String)) (producer consumer : String) :
    List (String × List String) :=
  aupdate g producer fun s => if consumer ∈ s then s else s ++ [consumer]

/-- Method `KartonGraph.create_graph`: nested loop over ordered node
pairs; the adjacency maps a producer identity to the identities of its
consumers. -/
def create_graph (nodes : List KartonNode) : List (String × List String) :=
  (nodes.flatMap fun node => nodes.map fun other => (node, other)).foldl
    (fun g p =>
      if KartonNode.contains_node p.1 p.2
      then addConsumer g p.2.identity p.1.identity else g)
    (initGraph nodes)

/-- Bind record surface consumed by `KartonGraph.build_nodes`. -/
structure BindRecord where
  identity : String
  filters : List FilterDict
  info : Option String
  persistent : Bool
  version : String
  service_version : Option String
deriving DecidableEq, Repr

/-- Outputs record surface consumed by `KartonGraph.build_nodes`. -/
structure OutputsObject where
  identity : String
  outputs : List FilterDict
deriving DecidableEq, Repr

/-- Entry of the `values` dict inside `build_nodes`; the metadata dict
has the fixed keys `version` and `info`. -/
structure NodeValues where
  filters : Option (List FilterDict)
  outputs : Option (List FilterDict)
  metadata_version : String
  metadata_info : String
deriving DecidableEq, Repr

/-- Constant `EMPTY_METADATA` together with the `filters`/`outputs`
initialization of a fresh `values` entry. -/
def EMPTY_METADATA : NodeValues :=
  { filters := none, outputs := none,
    metadata_version := "none", metadata_info := "none" }

/-- Python truthiness of an optional string (None and `""` are falsy). -/
def strTruthy (o : Option String) : Bool :=
  match o with
  | none => false
  | some s => !s.isEmpty

/-- Loop body over `get_binds()` in `build_nodes`.  The guard
`bind.identity and bind.identity not in values` leaves a falsy identity
without an entry, so the subsequent `values[bind.identity]` raises
`KeyError`, embedded as `none`. -/
def bindStep (values : List (String × NodeValues)) (bind : BindRecord) :
    Option (List (String × NodeValues)) :=
  let values :=
    if bind.identity ≠ "" ∧ (alookup values bind.identity).isNone then
      values ++ [(bind.identity, EMPTY_METADATA)]
    else values
  if (alookup values bind.identity).isSome then
    some (aupdate values bind.identity fun e =>
      { e with
          filters := some bind.filters,
          metadata_version :=
            if strTruthy bind.service_version
            then bind.service_version.getD "" else "N/A",
          metadata_info :=
            if strTruthy bind.info then bind.info.getD "" else "N/A" })
  else none

/-- Loop body over `get_outputs()` in `build_nodes` (never fails: the
entry is created unconditionally when missing). -/
def outputsStep (values : List (String × NodeValues)) (oo : OutputsObject) :
    List (String × NodeValues) :=
  let values :=
    if (alookup values oo.identity).isNone then
      values ++ [(oo.identity, EMPTY_METADATA)]
    else values
  aupdate values oo.identity fun e => { e with outputs := some oo.outputs }

def build_values (binds : List BindRecord) (outputs : List OutputsObject) :
    Option (List (String × NodeValues)) :=
  (binds.foldl (fun acc b => acc.bind fun v => bindStep v b) (some [])).map
    fun v => outputs.foldl outputsStep v

/-- Method `KartonGraph.build_nodes`. -/
def build_nodes (binds : List BindRecord) (outputs : List OutputsObject) :
    Option (List KartonNode) :=
  (build_values binds outputs).map fun values =>
    values.map fun p =>
      { identity := p.1, metadata_version := p.2.metadata_version,
        metadata_info := p.2.metadata_info,
        filters := p.2.filters, outputs := p.2.outputs }

/-- Method `KartonGraph.generate_graph` up to (and excluding) the
networkx/GEXF serialization, which is an external library concern. -/
def generate_graph (binds : List BindRecord) (outputs : List OutputsObject) :
    Option (List (String × List String)) :=
  (build_nodes binds outputs).map create_graph

/-! ### Metric export (`varz` in `karton/dashboard/app.py`) -/

/-- Label triple of the `karton_tasks` gauge family. -/
abbrev MetricKey := String × String × String

/-- Python `re.sub("[^a-z0-9]", "_", identity.lower())`. -/
def safe_name (s : String) : String :=
  ((s.toLower.toList).map fun c =>
    if c.isLower || c.isDigit then c else '_').asString

/-- The `task_infos` defaultdict: per-(name, priority, status) counts. -/
def tallyTasks (safe : String) (tasks : List TaskData) :
    List (MetricKey × Int) :=
  tasks.foldl (fun acc t =>
    let key : MetricKey := (safe, t.priority.value, t.status.value)
    match alookup acc key with
    | some _ => aupdate acc key fun m => m + 1
    | none => acc ++ [(key, 1)]) []

def allPriorities : List TaskPriority :=
  [TaskPriority.high, TaskPriority.normal, TaskPriority.low]

def allStates : List TaskState :=
  [TaskState.declared, TaskState.spawned, TaskState.started,
    TaskState.finished, TaskState.crashed]

/-- Body of the `for queue in state.queues.values()` loop in `varz`:
tally, zero-fill the full `product(TaskPriority, TaskState)` grid for the
queue, then overlay the tallied counts. -/
def processVarzQueue (metrics : List (MetricKey × Int)) (identity : String)
    (tasks : List TaskData) : List (MetricKey × Int) :=
  let safe := safe_name identity
  let infos := tallyTasks safe tasks
  let metrics :=
    (allPriorities.flatMap fun p => allStates.map fun s => (p, s)).foldl
      (fun m ps => assocSet m (safe, ps.1.value, ps.2.value) (0 : Int)) metrics
  infos.foldl (fun m kv => assocSet m kv.1 kv.2) metrics

/-- Surface of one external `KartonQueue` consumed by `varz`
(`queue.bind.identity`, `queue.tasks`). -/
structure VarzQueue where
  identity : String
  version : String
  tasks : List TaskData
deriving DecidableEq, Repr

/-- The `karton_tasks` gauge family after one `varz` run:
`karton_tasks.clear()` first, then the per-queue loop. -/
def varzTaskMetrics (queues : List VarzQueue) : List (MetricKey × Int) :=
  queues.foldl (fun m q => processVarzQueue m q.identity q.tasks) []

/-- Reset loop of the legacy `varz` in `src/app.py`:
`for _key, gauge in karton_tasks._metrics.items(): gauge.set(0)` — only
series already materialized in the registry are reset, nothing is
created. -/
def legacyVarzReset (registry : List (MetricKey × Int)) :
    List (MetricKey × Int) :=
  registry.map fun kv => (kv.1, (0 : Int))

/-- Per-queue body of the legacy `varz` loop in `src/app.py`: tally
`queue.tasks` (the pending list only — crashed tasks are never counted)
and overlay via `karton_tasks.labels(...).set(count)`; there is no
zero-fill over the priority-status grid. -/
def legacyProcessQueue (metrics : List (MetricKey × Int)) (name : String)
    (tasks : List TaskData) : List (MetricKey × Int) :=
  let safe := safe_name name
  let infos := tallyTasks safe tasks
  infos.foldl (fun m kv => assocSet m kv.1 kv.2) metrics

/-- The `karton_tasks` gauge family after one legacy `varz` run in
`src/app.py`, starting from the process-global registry state
`karton_tasks._metrics`. -/
def legacy_varz_task_metrics (registry : List (MetricKey × Int))
    (store : Store) : List (MetricKey × Int) :=
  (KartonState.build store).queues.foldl
    (fun m p => legacyProcessQueue m p.2.name p.2.tasks)
    (legacyVarzReset registry)

/-- One edge-loop step of `create_graph`. -/
def edgeStep (g : List (String × List String))
    (p : KartonNode × KartonNode) : List (String × List String) :=
  if KartonNode.contains_node p.1 p.2
  then addConsumer g p.2.identity p.1.identity else g

/-! ### Concrete fixtures used by witnesses and counterexamples -/

def exTask1 : TaskData :=
  { uid := "t1", root_uid := "r1", receiver := some "q1",
    status := TaskState.spawned, priority := TaskPriority.normal,
    last_update := 10 }

def exTask2 : TaskData :=
  { uid := "t2", root_uid := "r1", receiver := some "q2",
    status := TaskState.crashed, priority := TaskPriority.normal,
    last_update := 20 }

def exStore : Store :=
  { log_queue_len := 0,
    binds := [("q1", Registration.full [[("type", "sample")]] none true "5.3.0"),
              ("q2", Registration.compat [[("kind", "raw")]])],
    task_fetch := [some exTask1, some exTask2],
    client_list := ["q1"] }

def exStore2 : Store := { exStore with task_fetch := [some exTask1, none] }

def taskA10 : TaskData :=
  { uid := "a", root_uid := "r", receiver := some "q",
    status := TaskState.spawned, priority := TaskPriority.normal,
    last_update := 10 }

def taskB20 : TaskData :=
  { uid := "b", root_uid := "r", receiver := some "q",
    status := TaskState.spawned, priority := TaskPriority.normal,
    last_update := 20 }

def taskA5 : TaskData :=
  { uid := "a", root_uid := "r", receiver := some "q",
    status := TaskState.spawned, priority := TaskPriority.normal,
    last_update := 5 }

def taskB5 : TaskData :=
  { uid := "b", root_uid := "r", receiver := some "q",
    status := TaskState.spawned, priority := TaskPriority.normal,
    last_update := 5 }

def cexQueue : Queue :=
  { name := "q", tasks := [taskA10, taskB20], crashed := [], binds := [],
    raw_description := none, persistent := true, version := "5.0.0",
    replicas := 0 }

def cexInspectQueue : InspectQueue :=
  { identity := "q", filters := [], info := none, persistent := true,
    version := "5.0.0", service_version := none,
    online_consumers_count := 0, pending_tasks := [taskB5, taskA5],
    crashed_tasks := [] }

def exBindA : BindRecord :=
  { identity := "a", filters := [[("type", "x")]], info := none,
    persistent := true, version := "5.0.0", service_version := some "1.0" }

def exOutB : OutputsObject :=
  { identity := "b", outputs := [[("type", "x"), ("quality", "high")]] }

def exNodeA : KartonNode :=
  { identity := "a", metadata_version := "1.0", metadata_info := "N/A",
    filters := some [[("type", "x")]], outputs := none }

def exNodeB : KartonNode :=
  { identity := "b", metadata_version := "none", metadata_info := "none",
    filters := none, outputs := some [[("type", "x"), ("quality", "high")]] }

def exNodes : List KartonNode := [exNodeA, exNodeB]

def exSelfNode : KartonNode :=
  { identity := "loop", metadata_version := "none", metadata_info := "none",
    filters := some [[("k", "v")]], outputs := some [[("k", "v")]] }

def c8Store : Store :=
  { log_queue_len := 0,
    binds := [("q1", Registration.full [] none true "5.0.0")],
    task_fetch := [], client_list := [] }

def exVarzQueue : VarzQueue :=
  { identity := "Karton.Classifier", version := "5.0.0",
    tasks := [{ uid := "t1", root_uid := "r1",
                receiver := some "karton.classifier",
                status := TaskState.started, priority := TaskPriority.high,
                last_update := 1 }] }

def exEmptyAnalysis : InspectAnalysis :=
  { root_uid := "nope", tasks := [], pending_queues := [] }

def emptyIdentityBind : BindRecord :=
  { identity := "", filters := [], info := none, persistent := false,
    version := "5.0.0", service_version := none }

/-! ### Claim theorems -/

/-! ### Theorems -/

theorem alookup_aupdate (l : List (κ × α)) (k : κ) (f : α → α) (k' : κ) :
    alookup (aupdate l k f) k' =
      if k' = k then (alookup l k).map f else alookup l k' := by
  induction l with
  | nil => simp [alookup, aupdate]
  | cons p ps ih =>
    by_cases hk : k' = k
    · subst hk
      by_cases hp : p.1 = k'
      · simp [aupdate, alookup, hp]
      · simp only [aupdate, List.map_cons] at ih ⊢
        simp [alookup, hp, ih]
    · have hk2 : ¬k = k' := fun h => hk h.symm
      by_cases hp : p.1 = k
      · have hp' : p.1 ≠ k' := fun h => hk2 (hp.symm.trans h)
        simp only [aupdate, List.map_cons] at ih ⊢
        simp [alookup, hp, hp', hk, hk2, ih]
      · simp only [aupdate, List.map_cons, if_neg hp] at ih ⊢
        by_cases hq : p.1 = k'
        · simp [alookup, hp, hq, hk, hk2]
        · simp [alookup, hp, hq, hk, hk2, ih]

theorem aupdate_fst (l : List (κ × α)) (k : κ) (f : α → α) :
    (aupdate l k f).map Prod.fst = l.map Prod.fst := by
  induction l with
  | nil => rfl
  | cons p ps ih =>
    by_cases hp : p.1 = k <;> simp [aupdate, hp] at ih ⊢ <;> exact ih

theorem alookup_append (l₁ l₂ : List (κ × α)) (k : κ) :
    alookup (l₁ ++ l₂) k =
      match alookup l₁ k with
      | some v => some v
      | none => alookup l₂ k := by
  induction l₁ with
  | nil => simp [alookup]
  | cons p ps ih =>
    by_cases hp : p.1 = k <;> simp [alookup, hp, ih]

theorem alookup_isSome_iff (l : List (κ × α)) (k : κ) :
    (alookup l k).isSome ↔ k ∈ l.map Prod.fst := by
  induction l with
  | nil => simp [alookup]
  | cons p ps ih =>
    by_cases hp : p.1 = k <;> simp [alookup, hp, ih]
    exact fun h => absurd h.symm hp

theorem alookup_eq_none_of_not_mem {l : List (κ × α)} {k : κ}
    (h : k ∉ l.map Prod.fst) : alookup l k = none := by
  cases ho : alookup l k with
  | none => rfl
  | some v =>
    exact absurd ((alookup_isSome_iff l k).mp (by simp [ho])) h

theorem pendingOf_cons (r : String) (mt : Option TaskData)
    (ts : List (Option TaskData)) :
    pendingOf r (mt :: ts) = pendingOf r [mt] ++ pendingOf r ts := by
  cases mt with
  | none => simp [pendingOf, List.filterMap_cons]
  | some td =>
    simp only [pendingOf, List.filterMap_cons, id, List.filter_cons]
    split <;> simp

theorem crashedOf_cons (r : String) (mt : Option TaskData)
    (ts : List (Option TaskData)) :
    crashedOf r (mt :: ts) = crashedOf r [mt] ++ crashedOf r ts := by
  cases mt with
  | none => simp [crashedOf, List.filterMap_cons]
  | some td =>
    simp only [crashedOf, List.filterMap_cons, id, List.filter_cons]
    split <;> simp

theorem processTask_queues_fst (st : KState) (mt : Option TaskData) :
    (processTask st mt).queues.map Prod.fst = st.queues.map Prod.fst := by
  cases mt with
  | none => rfl
  | some td =>
    cases hr : td.receiver with
    | none => simp [processTask, hr]
    | some qn =>
      by_cases hf : td.status = TaskState.finished
      · simp [processTask, hr, hf]
      · by_cases hq : (alookup st.queues qn).isNone
        · simp [processTask, hr, hf, hq]
        · by_cases hc : td.status = TaskState.crashed <;>
            simp [processTask, hr, hf, hq, hc, aupdate_fst]

theorem foldl_processTask_queues_fst (ts : List (Option TaskData)) (st : KState) :
    (ts.foldl processTask st).queues.map Prod.fst = st.queues.map Prod.fst := by
  induction ts generalizing st with
  | nil => rfl
  | cons mt ts ih => rw [List.foldl_cons, ih, processTask_queues_fst]

theorem processTask_alookup_queues (st : KState) (mt : Option TaskData)
    (r : String) (q : Queue) (h : alookup st.queues r = some q) :
    alookup (processTask st mt).queues r =
      some { q with tasks := q.tasks ++ pendingOf r [mt],
                    crashed := q.crashed ++ crashedOf r [mt] } := by
  cases mt with
  | none => simpa [processTask, pendingOf, crashedOf] using h
  | some td =>
    cases hr : td.receiver with
    | none => simpa [processTask, hr, pendingOf, crashedOf] using h
    | some qn =>
      by_cases hf : td.status = TaskState.finished
      · simpa [processTask, hr, hf, pendingOf, crashedOf] using h
      · by_cases hq : (alookup st.queues qn).isNone
        · have hne : qn ≠ r := by
            intro he; subst he; rw [h] at hq; simp at hq
          simpa [processTask, hr, hf, hq, pendingOf, crashedOf, hne] using h
        · by_cases hc : td.status = TaskState.crashed
          · by_cases he : qn = r
            · subst he
              simp [processTask, hr, hf, hq, hc, pendingOf, crashedOf,
                alookup_aupdate, h]
            · have hne : ¬r = qn := fun hx => he hx.symm
              simpa [processTask, hr, hf, hq, hc, pendingOf, crashedOf,
                alookup_aupdate, hne, he] using h
          · by_cases he : qn = r
            · subst he
              simp [processTask, hr, hf, hq, hc, pendingOf, crashedOf,
                alookup_aupdate, h]
            · have hne : ¬r = qn := fun hx => he hx.symm
              simpa [processTask, hr, hf, hq, hc, pendingOf, crashedOf,
                alookup_aupdate, hne, he] using h

theorem foldl_processTask_alookup_queues (ts : List (Option TaskData))
    (st : KState) (r : String) (q : Queue) (h : alookup st.queues r = some q) :
    alookup (ts.foldl processTask st).queues r =
      some { q with tasks := q.tasks ++ pendingOf r ts,
                    crashed := q.crashed ++ crashedOf r ts } := by
  induction ts generalizing st q with
  | nil => simpa [pendingOf, crashedOf] using h
  | cons mt ts ih =>
    rw [List.foldl_cons]
    have hstep := processTask_alookup_queues st mt r q h
    have hrest := ih (processTask st mt) _ hstep
    rw [hrest]
    simp only [pendingOf_cons r mt ts, crashedOf_cons r mt ts, List.append_assoc]

theorem mem_pendingOf {r : String} {ts : List (Option TaskData)} {td : TaskData} :
    td ∈ pendingOf r ts ↔
      some td ∈ ts ∧ td.receiver = some r ∧ td.status ≠ TaskState.finished ∧
        td.status ≠ TaskState.crashed := by
  simp only [pendingOf, List.mem_filter, List.mem_filterMap, id]
  constructor
  · rintro ⟨⟨a, ha, rfl⟩, hcond⟩
    simp only [Bool.and_eq_true, decide_eq_true_eq, Bool.not_eq_true',
      decide_eq_false_iff_not] at hcond
    exact ⟨ha, hcond.1.1, hcond.1.2, hcond.2⟩
  · rintro ⟨hmem, h1, h2, h3⟩
    exact ⟨⟨some td, hmem, rfl⟩, by simp [h1, h2, h3]⟩

theorem mem_crashedOf {r : String} {ts : List (Option TaskData)} {td : TaskData} :
    td ∈ crashedOf r ts ↔
      some td ∈ ts ∧ td.receiver = some r ∧ td.status = TaskState.crashed := by
  simp only [crashedOf, List.mem_filter, List.mem_filterMap, id]
  constructor
  · rintro ⟨⟨a, ha, rfl⟩, hcond⟩
    simp only [Bool.and_eq_true, decide_eq_true_eq] at hcond
    exact ⟨ha, hcond.1, hcond.2⟩
  · rintro ⟨hmem, h1, h2⟩
    exact ⟨⟨some td, hmem, rfl⟩, by simp [h1, h2]⟩

theorem Queue.init_tasks (name : String) (registration : Registration) :
    (Queue.init name registration).tasks = [] ∧
      (Queue.init name registration).crashed = [] := by
  cases registration <;> simp [Queue.init]

theorem alookup_map_init {l : List (String × Registration)} {r : String} {q : Queue}
    (h : alookup (l.map fun p => (p.1, Queue.init p.1 p.2)) r = some q) :
    q.tasks = [] ∧ q.crashed = [] := by
  induction l with
  | nil => simp [alookup] at h
  | cons p ps ih =>
    by_cases hp : p.1 = r
    · simp only [List.map_cons, alookup, hp, if_pos] at h
      have hq := Option.some.inj h
      subst hq
      exact Queue.init_tasks r p.2
    · simp only [List.map_cons, alookup, hp, if_neg, if_false] at h
      exact ih h

theorem alookup_initQueues {binds : List (String × Registration)} {r : String}
    {q : Queue} (h : alookup (initQueues binds) r = some q) :
    q.tasks = [] ∧ q.crashed = [] :=
  alookup_map_init h

theorem countReplica_alookup_proj (queues : List (String × Queue)) (c : String)
    (r : String) :
    (alookup (countReplica queues c) r).map (fun q => (q.tasks, q.crashed)) =
      (alookup queues r).map fun q => (q.tasks, q.crashed) := by
  unfold countReplica
  split
  · rfl
  · rw [alookup_aupdate]
    by_cases hr : r = c
    · subst hr
      rw [if_pos rfl]
      cases alookup queues r <;> rfl
    · rw [if_neg hr]

theorem countReplicas_alookup_proj (queues : List (String × Queue))
    (clients : List String) (r : String) :
    (alookup (countReplicas queues clients) r).map (fun q => (q.tasks, q.crashed)) =
      (alookup queues r).map fun q => (q.tasks, q.crashed) := by
  induction clients generalizing queues with
  | nil => rfl
  | cons c cs ih =>
    rw [countReplicas, List.foldl_cons, ← countReplicas, ih,
      countReplica_alookup_proj]

/-- Final queue lists of a full `KartonState.build` run: for every known
bind `r` the pending list is exactly `pendingOf` and the crashed list is
exactly `crashedOf`, in pass order. -/
theorem build_alookup_queues (store : Store) (r : String) (q0 : Queue)
    (h : alookup (initQueues store.binds) r = some q0) :
    ∃ q, alookup (KartonState.build store).queues r = some q ∧
      q.tasks = pendingOf r store.task_fetch ∧
      q.crashed = crashedOf r store.task_fetch := by
  have hempty := alookup_initQueues h
  have hfold := foldl_processTask_alookup_queues store.task_fetch
    { queues := initQueues store.binds, analyses := [] } r q0 h
  have hproj := countReplicas_alookup_proj
    (store.task_fetch.foldl processTask
      { queues := initQueues store.binds, analyses := [] }).queues
    store.client_list r
  rw [hfold] at hproj
  simp only [Option.map_some'] at hproj
  unfold KartonState.build
  cases hfin : alookup (countReplicas
      (store.task_fetch.foldl processTask
        { queues := initQueues store.binds, analyses := [] }).queues
      store.client_list) r with
  | none => rw [hfin] at hproj; simp at hproj
  | some qf =>
    rw [hfin] at hproj
    simp only [Option.map_some', Option.some.injEq, Prod.mk.injEq] at hproj
    exact ⟨qf, rfl, by rw [hproj.1, hempty.1]; simp,
      by rw [hproj.2, hempty.2]; simp⟩

/-! ### Skipped records contribute nothing -/

theorem processTask_skip (st : KState) (mt : Option TaskData)
    (h : mt = none ∨ ∃ td, mt = some td ∧
      (td.receiver = none ∨ td.status = TaskState.finished ∨
        ∃ r, td.receiver = some r ∧ alookup st.queues r = none)) :
    processTask st mt = st := by
  rcases h with rfl | ⟨td, rfl, hcase⟩
  · rfl
  · rcases hcase with hr | hf | ⟨r, hr, hq⟩
    · simp [processTask, hr]
    · cases hr : td.receiver with
      | none => simp [processTask, hr]
      | some qn => simp [processTask, hr, hf]
    · by_cases hf : td.status = TaskState.finished
      · simp [processTask, hr, hf]
      · simp [processTask, hr, hf, hq]

theorem Analysis.countTask_add_task (a : Analysis) (r' : String) (td' : TaskData)
    (r : String) (td : TaskData) :
    (a.add_task r' td').countTask r td =
      a.countTask r td + (if r' = r ∧ td' = td then 1 else 0) := by
  unfold Analysis.add_task Analysis.countTask
  by_cases hs : (alookup a.queues r').isSome
  · rw [if_pos hs]
    simp only
    rw [alookup_aupdate]
    by_cases hr : r = r'
    · subst hr
      rw [if_pos rfl]
      cases hl : alookup a.queues r with
      | none => rw [hl] at hs; simp at hs
      | some l =>
        simp only [Option.map_some', Option.getD_some, List.count_append]
        by_cases he : td' = td <;> simp [he, List.count_singleton]
    · rw [if_neg hr]
      have hcond : ¬(r' = r ∧ td' = td) := fun hx => hr hx.1.symm
      simp [hcond]
  · rw [if_neg hs]
    simp only
    rw [alookup_append]
    by_cases hr : r = r'
    · subst hr
      have hnone : alookup a.queues r = none := by
        cases hx : alookup a.queues r with
        | none => rfl
        | some v => rw [hx] at hs; simp at hs
      rw [hnone]
      simp only [alookup, if_pos rfl, Option.getD_some, Option.getD_none,
        List.count_nil]
      by_cases he : td' = td <;> simp [he, List.count_singleton]
    · have hr' : ¬r' = r := fun hx => hr hx.symm
      cases hx : alookup a.queues r with
      | some v => simp [hr']
      | none =>
        simp only [alookup, if_neg hr', Option.getD_none, List.count_nil]
        simp [hr']

/-- Analyses component of an active (non-skipped) pass step. -/
theorem processTask_analyses_active (st : KState) (td : TaskData) (qn : String)
    (hr : td.receiver = some qn) (hf : td.status ≠ TaskState.finished)
    (hq : ¬(alookup st.queues qn) = none) :
    (processTask st (some td)).analyses =
      if (alookup st.analyses td.root_uid).isSome then
        aupdate st.analyses td.root_uid fun a => a.add_task qn td
      else
        st.analyses ++
          [(td.root_uid, (Analysis.mk td.root_uid []).add_task qn td)] := by
  have hq' : ¬(alookup st.queues qn).isNone = true := by
    simpa [Option.isNone_iff_eq_none] using hq
  simp only [processTask, hr, if_neg hf, hq', ite_false]
  by_cases ha : (alookup st.analyses td.root_uid).isSome <;> simp [ha]

/-- Queues component keys are untouched by a pass step (proved earlier as
`processTask_queues_fst`); the analyses counter changes by exactly the
routing indicator. -/
theorem countTask_processTask (st : KState) (mt : Option TaskData)
    (R r : String) (td : TaskData) :
    (processTask st mt).countTask R r td =
      st.countTask R r td +
        (if mt = some td ∧ td.root_uid = R ∧ routesTo st r td then 1 else 0) := by
  cases mt with
  | none =>
    rw [processTask_skip _ _ (Or.inl rfl),
      if_neg (fun hx => by cases hx.1), Nat.add_zero]
  | some td' =>
    cases hr : td'.receiver with
    | none =>
      have hcond : ¬(some td' = some td ∧ td.root_uid = R ∧ routesTo st r td) := by
        rintro ⟨h1, -, h2, -, -⟩
        cases Option.some.inj h1
        rw [hr] at h2
        cases h2
      rw [processTask_skip _ _ (Or.inr ⟨td', rfl, Or.inl hr⟩),
        if_neg hcond, Nat.add_zero]
    | some qn =>
      by_cases hf : td'.status = TaskState.finished
      · have hcond : ¬(some td' = some td ∧ td.root_uid = R ∧ routesTo st r td) := by
          rintro ⟨h1, -, -, h2, -⟩
          cases Option.some.inj h1
          exact h2 hf
        rw [processTask_skip _ _ (Or.inr ⟨td', rfl, Or.inr (Or.inl hf)⟩),
          if_neg hcond, Nat.add_zero]
      · by_cases hq : alookup st.queues qn = none
        · have hcond : ¬(some td' = some td ∧ td.root_uid = R ∧ routesTo st r td) := by
            rintro ⟨h1, -, h2, -, h3⟩
            cases Option.some.inj h1
            rw [hr] at h2
            cases Option.some.inj h2
            rw [hq] at h3
            cases h3
          rw [processTask_skip _ _ (Or.inr ⟨td', rfl, Or.inr (Or.inr ⟨qn, hr, hq⟩)⟩),
            if_neg hcond, Nat.add_zero]
        · have hact := processTask_analyses_active st td' qn hr hf hq
          unfold KState.countTask
          rw [hact]
          by_cases ha : (alookup st.analyses td'.root_uid).isSome
          · rw [if_pos ha, alookup_aupdate]
            by_cases hR : R = td'.root_uid
            · subst hR
              obtain ⟨a0, hla⟩ := Option.isSome_iff_exists.mp ha
              rw [if_pos rfl, hla]
              simp only [Option.map_some', Option.getD_some]
              rw [Analysis.countTask_add_task]
              by_cases hc : qn = r ∧ td' = td
              · obtain ⟨hqr, hdd⟩ := hc
                subst hqr
                subst hdd
                rw [if_pos ⟨rfl, rfl⟩,
                  if_pos ⟨rfl, rfl, hr, hf, Option.isSome_iff_ne_none.mpr hq⟩]
              · have hcond : ¬(some td' = some td ∧ td.root_uid = td'.root_uid ∧
                    routesTo st r td) := by
                  rintro ⟨h1, -, h2, -, -⟩
                  cases Option.some.inj h1
                  rw [hr] at h2
                  exact hc ⟨Option.some.inj h2, rfl⟩
                rw [if_neg hc, if_neg hcond]
            · have hcond : ¬(some td' = some td ∧ td.root_uid = R ∧
                  routesTo st r td) := by
                rintro ⟨h1, h2, -⟩
                cases Option.some.inj h1
                exact hR h2.symm
              rw [if_neg hR, if_neg hcond, Nat.add_zero]
          · rw [if_neg ha, alookup_append]
            by_cases hR : R = td'.root_uid
            · subst hR
              have hla : alookup st.analyses td'.root_uid = none := by
                cases hx : alookup st.analyses td'.root_uid with
                | none => rfl
                | some v => rw [hx] at ha; simp at ha
              rw [hla]
              simp only [alookup, eq_self_iff_true, if_true, ite_true,
                Option.map_some', Option.getD_some, Option.map_none',
                Option.getD_none]
              rw [Analysis.countTask_add_task]
              simp only [Analysis.countTask, alookup, Option.getD_none,
                List.count_nil, Nat.zero_add]
              by_cases hc : qn = r ∧ td' = td
              · obtain ⟨hqr, hdd⟩ := hc
                subst hqr
                subst hdd
                rw [if_pos ⟨rfl, rfl⟩,
                  if_pos ⟨rfl, rfl, hr, hf, Option.isSome_iff_ne_none.mpr hq⟩]
              · have hcond : ¬(some td' = some td ∧ td.root_uid = td'.root_uid ∧
                    routesTo st r td) := by
                  rintro ⟨h1, -, h2, -, -⟩
                  cases Option.some.inj h1
                  rw [hr] at h2
                  exact hc ⟨Option.some.inj h2, rfl⟩
                rw [if_neg hc, if_neg hcond]
            · have hcond : ¬(some td' = some td ∧ td.root_uid = R ∧
                  routesTo st r td) := by
                rintro ⟨h1, h2, -⟩
                cases Option.some.inj h1
                exact hR h2.symm
              rw [if_neg hcond, Nat.add_zero]
              cases hx : alookup st.analyses R with
              | some v => simp
              | none =>
                have hR' : ¬td'.root_uid = R := fun hx2 => hR hx2.symm
                simp [alookup, hR']

theorem isSome_queues_processTask (st : KState) (mt : Option TaskData) (r : String) :
    (alookup (processTask st mt).queues r).isSome =
      (alookup st.queues r).isSome := by
  apply Bool.coe_iff_coe.mp
  rw [alookup_isSome_iff, alookup_isSome_iff, processTask_queues_fst]

theorem routesTo_processTask (st : KState) (mt : Option TaskData) (r : String)
    (td : TaskData) : routesTo (processTask st mt) r td ↔ routesTo st r td := by
  unfold routesTo
  rw [isSome_queues_processTask]

theorem countTask_foldl (ts : List (Option TaskData)) (st : KState)
    (R r : String) (td : TaskData) :
    (ts.foldl processTask st).countTask R r td =
      st.countTask R r td +
        (if td.root_uid = R ∧ routesTo st r td
         then ts.count (some td) else 0) := by
  induction ts generalizing st with
  | nil => simp
  | cons mt ts ih =>
    rw [List.foldl_cons, ih, countTask_processTask]
    by_cases hc : td.root_uid = R ∧ routesTo st r td
    · have hc' : td.root_uid = R ∧ routesTo (processTask st mt) r td :=
        ⟨hc.1, (routesTo_processTask st mt r td).mpr hc.2⟩
      rw [if_pos hc, if_pos hc']
      by_cases hmt : mt = some td
      · rw [if_pos ⟨hmt, hc⟩, hmt, List.count_cons_self]
        omega
      · rw [if_neg (fun hx => hmt hx.1),
          List.count_cons_of_ne (fun hx => hmt hx.symm)]
        omega
    · have hc' : ¬(td.root_uid = R ∧ routesTo (processTask st mt) r td) :=
        fun hx => hc ⟨hx.1, (routesTo_processTask st mt r td).mp hx.2⟩
      rw [if_neg hc, if_neg hc', if_neg (fun hx => hc hx.2)]

/-- Presence of an analysis object after a step. -/
theorem isSome_analyses_processTask (st : KState) (mt : Option TaskData)
    (R : String) :
    (alookup (processTask st mt).analyses R).isSome ↔
      (alookup st.analyses R).isSome ∨
        ∃ td, mt = some td ∧ td.root_uid = R ∧ ∃ r, routesTo st r td := by
  cases mt with
  | none =>
    rw [processTask_skip _ _ (Or.inl rfl)]
    simp
  | some td' =>
    cases hr : td'.receiver with
    | none =>
      rw [processTask_skip _ _ (Or.inr ⟨td', rfl, Or.inl hr⟩)]
      constructor
      · exact Or.inl
      · rintro (h | ⟨td, h1, -, r, h2, -, -⟩)
        · exact h
        · cases Option.some.inj h1
          rw [hr] at h2
          cases h2
    | some qn =>
      by_cases hf : td'.status = TaskState.finished
      · rw [processTask_skip _ _ (Or.inr ⟨td', rfl, Or.inr (Or.inl hf)⟩)]
        constructor
        · exact Or.inl
        · rintro (h | ⟨td, h1, -, r, -, h2, -⟩)
          · exact h
          · cases Option.some.inj h1
            exact absurd hf h2
      · by_cases hq : alookup st.queues qn = none
        · rw [processTask_skip _ _ (Or.inr ⟨td', rfl, Or.inr (Or.inr ⟨qn, hr, hq⟩)⟩)]
          constructor
          · exact Or.inl
          · rintro (h | ⟨td, h1, -, r, h2, -, h3⟩)
            · exact h
            · cases Option.some.inj h1
              rw [hr] at h2
              cases Option.some.inj h2
              rw [hq] at h3
              cases h3
        · rw [processTask_analyses_active st td' qn hr hf hq]
          have hroutes : ∃ r, routesTo st r td' :=
            ⟨qn, hr, hf, Option.isSome_iff_ne_none.mpr hq⟩
          by_cases ha : (alookup st.analyses td'.root_uid).isSome
          · rw [if_pos ha, alookup_isSome_iff, aupdate_fst, ← alookup_isSome_iff]
            constructor
            · exact Or.inl
            · rintro (h | ⟨td, h1, h2, h3⟩)
              · exact h
              · cases Option.some.inj h1
                rw [← h2]
                exact ha
          · rw [if_neg ha]
            by_cases hR : R = td'.root_uid
            · subst hR
              constructor
              · intro
                exact Or.inr ⟨td', rfl, rfl, hroutes⟩
              · intro
                rw [alookup_isSome_iff, List.map_append, List.mem_append]
                right
                simp
            · constructor
              · intro h
                rw [alookup_isSome_iff, List.map_append, List.mem_append] at h
                rcases h with h | h
                · exact Or.inl ((alookup_isSome_iff _ _).mpr h)
                · simp at h
                  exact absurd h hR
              · rintro (h | ⟨td, h1, h2, h3⟩)
                · rw [alookup_isSome_iff, List.map_append, List.mem_append]
                  exact Or.inl ((alookup_isSome_iff _ _).mp h)
                · cases Option.some.inj h1
                  exact absurd h2.symm hR

theorem isSome_analyses_foldl (ts : List (Option TaskData)) (st : KState)
    (R : String) :
    (alookup (ts.foldl processTask st).analyses R).isSome ↔
      (alookup st.analyses R).isSome ∨
        ∃ td, some td ∈ ts ∧ td.root_uid = R ∧ ∃ r, routesTo st r td := by
  induction ts generalizing st with
  | nil => simp
  | cons mt ts ih =>
    rw [List.foldl_cons, ih, isSome_analyses_processTask]
    constructor
    · rintro (⟨h | ⟨td, h1, h2, r, h3⟩⟩ | ⟨td, h1, h2, r, h3⟩)
      · exact Or.inl h
      · exact Or.inr ⟨td, by rw [h1]; exact List.mem_cons_self _ _, h2, r, h3⟩
      · exact Or.inr ⟨td, List.mem_cons_of_mem _ h1, h2, r,
          (routesTo_processTask st mt r td).mp h3⟩
    · rintro (h | ⟨td, h1, h2, r, h3⟩)
      · exact Or.inl (Or.inl h)
      · rcases List.mem_cons.mp h1 with h1 | h1
        · exact Or.inl (Or.inr ⟨td, h1.symm, h2, r, h3⟩)
        · exact Or.inr ⟨td, h1, h2, r,
            (routesTo_processTask st mt r td).mpr h3⟩

theorem AnalysisWF.add_task {R : String} {a : Analysis} (h : AnalysisWF R a)
    (r' : String) {td : TaskData} (htd : td.root_uid = R) :
    AnalysisWF R (a.add_task r' td) := by
  unfold Analysis.add_task
  by_cases hs : (alookup a.queues r').isSome
  · rw [if_pos hs]
    refine ⟨h.1, ?_⟩
    intro ql hql
    rw [aupdate, List.mem_map] at hql
    obtain ⟨q, hq, rfl⟩ := hql
    by_cases hqr : q.1 = r'
    · rw [if_pos hqr]
      refine ⟨by simp [(h.2 q hq).1], ?_⟩
      intro t ht
      rcases List.mem_append.mp ht with ht | ht
      · exact (h.2 q hq).2 t ht
      · rw [List.mem_singleton.mp ht]; exact htd
    · rw [if_neg hqr]
      exact h.2 q hq
  · rw [if_neg hs]
    refine ⟨h.1, ?_⟩
    intro ql hql
    rcases List.mem_append.mp hql with hql | hql
    · exact h.2 ql hql
    · rw [List.mem_singleton.mp hql]
      exact ⟨by simp, fun t ht => by rw [List.mem_singleton.mp ht]; exact htd⟩

theorem AnalysesWF_processTask (st : KState) (mt : Option TaskData)
    (h : AnalysesWF st.analyses) : AnalysesWF (processTask st mt).analyses := by
  rcases hskip : mt with - | td'
  · rw [processTask_skip _ _ (Or.inl rfl)]; exact h
  · cases hr : td'.receiver with
    | none => rw [processTask_skip _ _ (Or.inr ⟨td', rfl, Or.inl hr⟩)]; exact h
    | some qn =>
      by_cases hf : td'.status = TaskState.finished
      · rw [processTask_skip _ _ (Or.inr ⟨td', rfl, Or.inr (Or.inl hf)⟩)]
        exact h
      · by_cases hq : alookup st.queues qn = none
        · rw [processTask_skip _ _
            (Or.inr ⟨td', rfl, Or.inr (Or.inr ⟨qn, hr, hq⟩)⟩)]
          exact h
        · rw [processTask_analyses_active st td' qn hr hf hq]
          by_cases ha : (alookup st.analyses td'.root_uid).isSome
          · rw [if_pos ha]
            intro p hp
            rw [aupdate, List.mem_map] at hp
            obtain ⟨q, hq', rfl⟩ := hp
            by_cases hqr : q.1 = td'.root_uid
            · rw [if_pos hqr]
              exact AnalysisWF.add_task (h q hq') qn hqr.symm
            · rw [if_neg hqr]
              exact h q hq'
          · rw [if_neg ha]
            intro p hp
            rcases List.mem_append.mp hp with hp | hp
            · exact h p hp
            · rw [List.mem_singleton.mp hp]
              exact AnalysisWF.add_task ⟨rfl, fun ql hql => by cases hql⟩ qn rfl

theorem AnalysesWF_foldl (ts : List (Option TaskData)) (st : KState)
    (h : AnalysesWF st.analyses) :
    AnalysesWF (ts.foldl processTask st).analyses := by
  induction ts generalizing st with
  | nil => exact h
  | cons mt ts ih =>
    rw [List.foldl_cons]
    exact ih _ (AnalysesWF_processTask st mt h)

theorem AnalysesWF_build (store : Store) :
    AnalysesWF (KartonState.build store).analyses :=
  AnalysesWF_foldl store.task_fetch
    { queues := initQueues store.binds, analyses := [] }
    (fun p hp => absurd hp (List.not_mem_nil p))

/-! ### Build-level corollaries for the analyses map -/

theorem build_countTask (store : Store) (R r : String) (td : TaskData) :
    (KartonState.build store).countTask R r td =
      if td.root_uid = R ∧
          routesTo { queues := initQueues store.binds, analyses := [] } r td
      then store.task_fetch.count (some td) else 0 := by
  have h0 : (KartonState.build store).countTask R r td =
      (store.task_fetch.foldl processTask
        { queues := initQueues store.binds, analyses := [] }).countTask R r td := rfl
  rw [h0, countTask_foldl]
  have hz : (KState.mk (initQueues store.binds) []).countTask R r td = 0 := by
    simp [KState.countTask, alookup]
  rw [hz, Nat.zero_add]

theorem build_analyses_isSome (store : Store) (R : String) :
    (alookup (KartonState.build store).analyses R).isSome ↔
      ∃ td, some td ∈ store.task_fetch ∧ td.root_uid = R ∧
        ∃ r, routesTo { queues := initQueues store.binds, analyses := [] } r td := by
  have h0 : (KartonState.build store).analyses =
      (store.task_fetch.foldl processTask
        { queues := initQueues store.binds, analyses := [] }).analyses := rfl
  rw [h0, isSome_analyses_foldl]
  simp [alookup]

theorem countTask_pos_mem (st : KState) (R r : String) (td : TaskData)
    (h : 0 < st.countTask R r td) :
    ∃ a, alookup st.analyses R = some a ∧ td ∈ (alookup a.queues r).getD [] := by
  unfold KState.countTask at h
  cases ha : alookup st.analyses R with
  | none => rw [ha] at h; simp at h
  | some a =>
    rw [ha] at h
    simp only [Option.map_some', Option.getD_some] at h
    exact ⟨a, rfl, List.count_pos_iff.mp h⟩

/-! ### Lemmas about the routing-graph construction -/

theorem alookup_assocSet (l : List (κ × α)) (k : κ) (v : α) (k' : κ) :
    alookup (assocSet l k v) k' = if k' = k then some v else alookup l k' := by
  unfold assocSet
  by_cases hs : (alookup l k).isSome
  · rw [if_pos hs, alookup_aupdate]
    by_cases hk : k' = k
    · subst hk
      obtain ⟨u, hu⟩ := Option.isSome_iff_exists.mp hs
      rw [if_pos rfl, if_pos rfl, hu]
      rfl
    · rw [if_neg hk, if_neg hk]
  · rw [if_neg hs, alookup_append]
    by_cases hk : k' = k
    · subst hk
      have hnone : alookup l k' = none := by
        cases hx : alookup l k' with
        | none => rfl
        | some u => rw [hx] at hs; simp at hs
      rw [hnone]
      simp [alookup]
    · cases hx : alookup l k' with
      | some u => simp [hk]
      | none =>
        have hk2 : ¬k = k' := fun h => hk h.symm
        simp [alookup, hk, hk2]

theorem isSome_alookup_assocSet (l : List (κ × α)) (k : κ) (v : α)
    (k' : κ) :
    (alookup (assocSet l k v) k').isSome =
      ((alookup l k').isSome || decide (k' = k)) := by
  rw [alookup_assocSet]
  by_cases hk : k' = k <;> simp [hk]

theorem initGraph_go (nodes : List KartonNode)
    (g : List (String × List String)) (k : String) :
    alookup (nodes.foldl (fun g node => assocSet g node.identity []) g) k =
      if k ∈ nodes.map KartonNode.identity then some [] else alookup g k := by
  induction nodes generalizing g with
  | nil => simp
  | cons n ns ih =>
    rw [List.foldl_cons, ih]
    by_cases hmem : k ∈ ns.map KartonNode.identity
    · rw [if_pos hmem, if_pos (by simp [hmem])]
    · rw [if_neg hmem, alookup_assocSet]
      by_cases hk : k = n.identity
      · rw [if_pos hk, if_pos (by simp [hk])]
      · rw [if_neg hk, if_neg (by simp [hk, hmem])]

theorem initGraph_lookup (nodes : List KartonNode) (k : String) :
    alookup (initGraph nodes) k =
      if k ∈ nodes.map KartonNode.identity then some [] else none := by
  unfold initGraph
  rw [initGraph_go]
  rfl

theorem mem_getD_addConsumer (g : List (String × List String))
    (producer consumer b x : String) :
    x ∈ (alookup (addConsumer g producer consumer) b).getD [] ↔
      x ∈ (alookup g b).getD [] ∨
        (b = producer ∧ x = consumer ∧ (alookup g producer).isSome) := by
  unfold addConsumer
  rw [alookup_aupdate]
  by_cases hb : b = producer
  · subst hb
    rw [if_pos rfl]
    cases hl : alookup g b with
    | none => simp
    | some s =>
      simp only [Option.map_some', Option.getD_some, Option.isSome_some]
      by_cases hc : consumer ∈ s
      · rw [if_pos hc]
        constructor
        · exact fun h => Or.inl h
        · rintro (h | ⟨-, rfl, -⟩)
          · exact h
          · exact hc
      · rw [if_neg hc]
        rw [List.mem_append, List.mem_singleton]
        constructor
        · rintro (h | h)
          · exact Or.inl h
          · exact Or.inr (by simp [h])
        · rintro (h | ⟨-, rfl, -⟩)
          · exact Or.inl h
          · exact Or.inr rfl
  · rw [if_neg hb]
    simp [hb]

theorem isSome_addConsumer (g : List (String × List String))
    (producer consumer k : String) :
    (alookup (addConsumer g producer consumer) k).isSome =
      (alookup g k).isSome := by
  apply Bool.coe_iff_coe.mp
  rw [alookup_isSome_iff, alookup_isSome_iff]
  unfold addConsumer
  rw [aupdate_fst]

theorem isSome_edgeStep (g : List (String × List String))
    (p : KartonNode × KartonNode) (k : String) :
    (alookup (edgeStep g p) k).isSome = (alookup g k).isSome := by
  unfold edgeStep
  split
  · rw [isSome_addConsumer]
  · rfl

theorem mem_edges_foldl (pairs : List (KartonNode × KartonNode))
    (g : List (String × List String)) (b x : String) :
    x ∈ (alookup (pairs.foldl edgeStep g) b).getD [] ↔
      x ∈ (alookup g b).getD [] ∨
        ∃ p ∈ pairs, KartonNode.contains_node p.1 p.2 ∧
          p.2.identity = b ∧ p.1.identity = x ∧
          (alookup g p.2.identity).isSome := by
  induction pairs generalizing g with
  | nil => simp
  | cons p ps ih =>
    rw [List.foldl_cons, ih]
    constructor
    · rintro (h | ⟨q, hq, hc, hb, hx, hs⟩)
      · unfold edgeStep at h
        by_cases hcp : KartonNode.contains_node p.1 p.2
        · rw [if_pos hcp] at h
          rcases (mem_getD_addConsumer g p.2.identity p.1.identity b x).mp h with
            h | ⟨hb, hx, hs⟩
          · exact Or.inl h
          · exact Or.inr ⟨p, List.mem_cons_self _ _, hcp, hb.symm, hx.symm, hs⟩
        · rw [if_neg hcp] at h
          exact Or.inl h
      · rw [isSome_edgeStep] at hs
        refine Or.inr ⟨q, List.mem_cons_of_mem _ hq, hc, hb, hx, hs⟩
    · rintro (h | ⟨q, hq, hc, hb, hx, hs⟩)
      · left
        unfold edgeStep
        split
        · exact (mem_getD_addConsumer g p.2.identity p.1.identity b x).mpr
            (Or.inl h)
        · exact h
      · rcases List.mem_cons.mp hq with rfl | hq
        · left
          unfold edgeStep
          rw [if_pos hc]
          exact (mem_getD_addConsumer g q.2.identity q.1.identity b x).mpr
            (Or.inr ⟨hb.symm, hx.symm, hs⟩)
        · refine Or.inr ⟨q, hq, hc, hb, hx, ?_⟩
          rw [isSome_edgeStep]
          exact hs

theorem mem_create_graph (nodes : List KartonNode) (b x : String) :
    x ∈ (alookup (create_graph nodes) b).getD [] ↔
      ∃ A ∈ nodes, ∃ B ∈ nodes, A.identity = x ∧ B.identity = b ∧
        KartonNode.contains_node A B := by
  unfold create_graph
  rw [show (fun (g : List (String × List String))
      (p : KartonNode × KartonNode) =>
        if KartonNode.contains_node p.1 p.2
        then addConsumer g p.2.identity p.1.identity else g) = edgeStep from rfl]
  rw [mem_edges_foldl]
  constructor
  · rintro (h | ⟨p, hp, hc, hb, hx, hs⟩)
    · rw [initGraph_lookup] at h
      split at h <;> simp at h
    · rw [List.mem_flatMap] at hp
      obtain ⟨A, hA, hp⟩ := hp
      rw [List.mem_map] at hp
      obtain ⟨B, hB, rfl⟩ := hp
      exact ⟨A, hA, B, hB, hx, hb, hc⟩
  · rintro ⟨A, hA, B, hB, hx, hb, hc⟩
    right
    refine ⟨(A, B), ?_, hc, hb, hx, ?_⟩
    · rw [List.mem_flatMap]
      exact ⟨A, hA, List.mem_map.mpr ⟨B, hB, rfl⟩⟩
    · rw [initGraph_lookup,
        if_pos (List.mem_map.mpr ⟨B, hB, rfl⟩)]
      rfl

theorem contains_node_iff (A B : KartonNode) :
    KartonNode.contains_node A B = true ↔
      ∃ fs, A.filters = some fs ∧ ∃ os, B.outputs = some os ∧
        ∃ f ∈ fs, ∃ o ∈ os, ∀ kv ∈ f, kv ∈ o := by
  unfold KartonNode.contains_node listTruthy
  cases hf : A.filters with
  | none =>
    simp
  | some fs =>
    cases ho : B.outputs with
    | none => simp
    | some os =>
      by_cases hfs : fs.isEmpty
      · rw [List.isEmpty_iff] at hfs
        subst hfs
        simp
      · by_cases hos : os.isEmpty
        · rw [List.isEmpty_iff] at hos
          subst hos
          simp
        · simp only [hfs, hos, Bool.not_false, Bool.and_self, if_true,
            Option.getD_some, List.any_eq_true, ite_true, Bool.and_true,
            Bool.not_eq_true']
          constructor
          · rintro ⟨f, hfmem, o, homem, hcont⟩
            refine ⟨fs, rfl, os, rfl, f, hfmem, o, homem, ?_⟩
            intro kv hkv
            have := (List.all_eq_true.mp hcont) kv hkv
            exact of_decide_eq_true this
          · rintro ⟨fs', hfs', os', hos', f, hfmem, o, homem, hcont⟩
            cases Option.some.inj hfs'
            cases Option.some.inj hos'
            refine ⟨f, hfmem, o, homem, ?_⟩
            rw [filter_contained]
            exact List.all_eq_true.mpr fun kv hkv => decide_eq_true (hcont kv hkv)

/-! ### Identities produced by `build_nodes` are distinct -/

theorem bindStep_nodup {values : List (String × NodeValues)} {b : BindRecord}
    {values' : List (String × NodeValues)}
    (h : bindStep values b = some values')
    (hn : (values.map Prod.fst).Nodup) : (values'.map Prod.fst).Nodup := by
  by_cases hcond : b.identity ≠ "" ∧ (alookup values b.identity).isNone
  · rw [bindStep, if_pos hcond] at h
    have hmem : b.identity ∉ values.map Prod.fst := by
      intro hx
      have := (alookup_isSome_iff values b.identity).mpr hx
      rw [Option.isNone_iff_eq_none.mp hcond.2] at this
      cases this
    have hn1 : ((values ++ [(b.identity, EMPTY_METADATA)]).map Prod.fst).Nodup := by
      rw [List.map_append]
      simpa [← List.concat_eq_append] using hn.concat hmem
    split at h
    · cases Option.some.inj h
      simpa [aupdate_fst] using hn1
    · cases h
  · rw [bindStep, if_neg hcond] at h
    split at h
    · cases Option.some.inj h
      simpa [aupdate_fst] using hn
    · cases h

theorem outputsStep_nodup {values : List (String × NodeValues)}
    {oo : OutputsObject}
    (hn : (values.map Prod.fst).Nodup) :
    ((outputsStep values oo).map Prod.fst).Nodup := by
  rw [outputsStep]
  by_cases hcond : (alookup values oo.identity).isNone
  · rw [if_pos hcond]
    have hmem : oo.identity ∉ values.map Prod.fst := by
      intro hx
      have := (alookup_isSome_iff values oo.identity).mpr hx
      rw [Option.isNone_iff_eq_none.mp hcond] at this
      cases this
    rw [aupdate_fst, List.map_append]
    simpa [← List.concat_eq_append] using hn.concat hmem
  · rw [if_neg hcond, aupdate_fst]
    exact hn

theorem bindsFold_none (binds : List BindRecord) :
    binds.foldl (fun acc b => acc.bind fun v => bindStep v b)
      (none : Option (List (String × NodeValues))) = none := by
  induction binds with
  | nil => rfl
  | cons b bs ih => simpa using ih

theorem bindsFold_nodup (binds : List BindRecord)
    (v : List (String × NodeValues)) (hn : (v.map Prod.fst).Nodup)
    {v' : List (String × NodeValues)}
    (h : binds.foldl (fun acc b => acc.bind fun v => bindStep v b)
      (some v) = some v') :
    (v'.map Prod.fst).Nodup := by
  induction binds generalizing v with
  | nil => cases Option.some.inj h; exact hn
  | cons b bs ih =>
    rw [List.foldl_cons] at h
    cases hc : bindStep v b with
    | none =>
      rw [show (some v).bind (fun v => bindStep v b) = none by simp [hc]] at h
      rw [bindsFold_none] at h
      cases h
    | some v1 =>
      rw [show (some v).bind (fun v => bindStep v b) = some v1 by simp [hc]] at h
      exact ih v1 (bindStep_nodup hc hn) h

theorem outputsFold_nodup (outputs : List OutputsObject)
    (v : List (String × NodeValues)) (hn : (v.map Prod.fst).Nodup) :
    ((outputs.foldl outputsStep v).map Prod.fst).Nodup := by
  induction outputs generalizing v with
  | nil => exact hn
  | cons oo os ih =>
    rw [List.foldl_cons]
    exact ih _ (outputsStep_nodup hn)

theorem build_values_nodup {binds : List BindRecord}
    {outputs : List OutputsObject} {values : List (String × NodeValues)}
    (h : build_values binds outputs = some values) :
    (values.map Prod.fst).Nodup := by
  unfold build_values at h
  cases hb : binds.foldl (fun acc b => acc.bind fun v => bindStep v b)
      (some []) with
  | none => rw [hb] at h; cases h
  | some v0 =>
    rw [hb] at h
    simp only [Option.map_some'] at h
    cases Option.some.inj h
    exact outputsFold_nodup outputs v0
      (bindsFold_nodup binds [] (by simp) hb)

theorem build_nodes_nodup {binds : List BindRecord}
    {outputs : List OutputsObject} {nodes : List KartonNode}
    (h : build_nodes binds outputs = some nodes) :
    (nodes.map KartonNode.identity).Nodup := by
  unfold build_nodes at h
  cases hv : build_values binds outputs with
  | none => rw [hv] at h; cases h
  | some values =>
    rw [hv] at h
    simp only [Option.map_some'] at h
    cases Option.some.inj h
    have : (values.map fun p =>
        ({ identity := p.1, metadata_version := p.2.metadata_version,
           metadata_info := p.2.metadata_info, filters := p.2.filters,
           outputs := p.2.outputs } : KartonNode)).map KartonNode.identity =
        values.map Prod.fst := by
      rw [List.map_map]
      rfl
    rw [this]
    exact build_values_nodup hv

/-! ### Lemmas about the metric export -/

theorem tallyFold_lookup (safe : String) (tasks : List TaskData)
    (acc : List (MetricKey × Int)) (key : MetricKey) :
    alookup (tasks.foldl (fun (acc : List (MetricKey × Int)) t =>
        let k : MetricKey := (safe, t.priority.value, t.status.value)
        match alookup acc k with
        | some _ => aupdate acc k fun m => m + 1
        | none => acc ++ [(k, (1 : Int))]) acc) key =
      match alookup acc key with
      | some n => some (n + ((tasks.countP fun t =>
          decide ((safe, t.priority.value, t.status.value) = key)) : Int))
      | none =>
        if (tasks.countP fun t =>
            decide ((safe, t.priority.value, t.status.value) = key)) = 0
        then none
        else some ((tasks.countP fun t =>
            decide ((safe, t.priority.value, t.status.value) = key)) : Int) := by
  induction tasks generalizing acc with
  | nil =>
    cases hx : alookup acc key <;> simp [hx]
  | cons t ts ih =>
    rw [List.foldl_cons]
    by_cases hk : (safe, t.priority.value, t.status.value) = key
    · rw [List.countP_cons_of_pos (fun t => decide ((safe, t.priority.value, t.status.value) = key)) ts (decide_eq_true hk)]
      cases hx : alookup acc (safe, t.priority.value, t.status.value) with
      | some n =>
        simp only [hx]
        rw [ih, alookup_aupdate, hk, if_pos rfl]
        rw [hk] at hx
        rw [hx]
        simp only [Option.map_some']
        push_cast
        ring_nf
      | none =>
        simp only [hx]
        rw [ih, alookup_append]
        rw [hk] at hx
        rw [hx]
        simp only [alookup, if_pos hk]
        rw [if_neg (by omega)]
        push_cast
        ring_nf
    · rw [List.countP_cons_of_neg (fun t => decide ((safe, t.priority.value, t.status.value) = key)) ts (by simpa using hk)]
      cases hx : alookup acc (safe, t.priority.value, t.status.value) with
      | some n =>
        simp only [hx]
        rw [ih, alookup_aupdate, if_neg (fun hx2 => hk hx2.symm)]
      | none =>
        simp only [hx]
        rw [ih, alookup_append]
        cases hy : alookup acc key with
        | some v => simp
        | none =>
          simp only [alookup, if_neg hk]

theorem tally_lookup (safe : String) (tasks : List TaskData) (key : MetricKey) :
    alookup (tallyTasks safe tasks) key =
      if (tasks.countP fun t =>
          decide ((safe, t.priority.value, t.status.value) = key)) = 0
      then none
      else some ((tasks.countP fun t =>
          decide ((safe, t.priority.value, t.status.value) = key)) : Int) := by
  unfold tallyTasks
  rw [tallyFold_lookup]
  rfl

theorem tally_keys_nodup_go (safe : String) (tasks : List TaskData)
    (acc : List (MetricKey × Int)) (hn : (acc.map Prod.fst).Nodup) :
    ((tasks.foldl (fun (acc : List (MetricKey × Int)) t =>
        let k : MetricKey := (safe, t.priority.value, t.status.value)
        match alookup acc k with
        | some _ => aupdate acc k fun m => m + 1
        | none => acc ++ [(k, (1 : Int))]) acc).map Prod.fst).Nodup := by
  induction tasks generalizing acc with
  | nil => exact hn
  | cons t ts ih =>
    rw [List.foldl_cons]
    cases hx : alookup acc (safe, t.priority.value, t.status.value) with
    | some n =>
      simp only [hx]
      exact ih _ (by rw [aupdate_fst]; exact hn)
    | none =>
      simp only [hx]
      refine ih _ ?_
      have hmem : (safe, t.priority.value, t.status.value) ∉ acc.map Prod.fst := by
        intro hx2
        have := (alookup_isSome_iff acc _).mpr hx2
        rw [hx] at this
        cases this
      rw [List.map_append]
      simpa [← List.concat_eq_append] using hn.concat hmem

theorem tally_keys_nodup (safe : String) (tasks : List TaskData) :
    ((tallyTasks safe tasks).map Prod.fst).Nodup :=
  tally_keys_nodup_go safe tasks [] (by simp)

theorem zeroFold_lookup (ps : List (TaskPriority × TaskState))
    (m : List (MetricKey × Int)) (safe : String) (key : MetricKey) :
    alookup (ps.foldl (fun m x =>
        assocSet m (safe, x.1.value, x.2.value) (0 : Int)) m) key =
      if key ∈ ps.map (fun x => (safe, x.1.value, x.2.value))
      then some 0 else alookup m key := by
  induction ps generalizing m with
  | nil => simp
  | cons x xs ih =>
    rw [List.foldl_cons, ih]
    by_cases hmem : key ∈ xs.map fun x => (safe, x.1.value, x.2.value)
    · rw [if_pos hmem, if_pos (by simp [hmem])]
    · rw [if_neg hmem, alookup_assocSet]
      by_cases hk : key = (safe, x.1.value, x.2.value)
      · rw [if_pos hk, if_pos (by simp [hk])]
      · rw [if_neg hk, if_neg (by simp [hk, hmem])]

theorem overlayFold_lookup (infos : List (MetricKey × Int))
    (m : List (MetricKey × Int)) (key : MetricKey)
    (hn : (infos.map Prod.fst).Nodup) :
    alookup (infos.foldl (fun m kv => assocSet m kv.1 kv.2) m) key =
      match alookup infos key with
      | some v => some v
      | none => alookup m key := by
  induction infos generalizing m with
  | nil => simp [alookup]
  | cons kv tl ih =>
    rw [List.foldl_cons, ih _ ((List.nodup_cons.mp hn).2)]
    cases hx : alookup tl key with
    | some v =>
      have hne : ¬kv.1 = key := by
        intro hk
        have hmem : key ∈ tl.map Prod.fst := by
          rw [← alookup_isSome_iff, hx]
          rfl
        have hn' : (kv.1 :: tl.map Prod.fst).Nodup := by simpa using hn
        exact (List.nodup_cons.mp hn').1 (by rw [hk]; exact hmem)
      simp only [alookup, if_neg hne, hx]
    | none =>
      rw [alookup_assocSet]
      by_cases hk : kv.1 = key
      · rw [if_pos hk.symm]
        simp only [alookup, if_pos hk]
      · rw [if_neg (fun h2 => hk h2.symm)]
        simp only [alookup, if_neg hk, hx]

theorem value_inj (p p' : TaskPriority) (s s' : TaskState) :
    (p.value = p'.value ∧ s.value = s'.value) ↔ (p = p' ∧ s = s') := by
  cases p <;> cases p' <;> cases s <;> cases s' <;> simp [TaskPriority.value,
    TaskState.value]

theorem mem_priority_state_grid (p : TaskPriority) (s : TaskState) :
    (p, s) ∈ allPriorities.flatMap fun p => allStates.map fun s => (p, s) := by
  cases p <;> cases s <;> decide

theorem processVarzQueue_lookup (m : List (MetricKey × Int))
    (identity : String) (tasks : List TaskData) (p : TaskPriority)
    (s : TaskState) :
    alookup (processVarzQueue m identity tasks)
        (safe_name identity, p.value, s.value) =
      some ((tasks.countP fun t =>
        decide (t.priority = p ∧ t.status = s)) : Int) := by
  unfold processVarzQueue
  rw [overlayFold_lookup _ _ _ (tally_keys_nodup _ _), tally_lookup]
  have hcnt : (tasks.countP fun t =>
      decide ((safe_name identity, t.priority.value, t.status.value) =
        (safe_name identity, p.value, s.value))) =
      tasks.countP fun t => decide (t.priority = p ∧ t.status = s) := by
    apply List.countP_congr
    intro t _
    rw [decide_eq_true_eq, decide_eq_true_eq]
    constructor
    · intro heq
      have h1 : t.priority.value = p.value ∧ t.status.value = s.value :=
        ⟨congrArg (fun x : MetricKey => x.2.1) heq,
          congrArg (fun x : MetricKey => x.2.2) heq⟩
      exact (value_inj t.priority p t.status s).mp h1
    · rintro ⟨h1, h2⟩
      rw [h1, h2]
  rw [hcnt]
  by_cases hz : (tasks.countP fun t => decide (t.priority = p ∧ t.status = s)) = 0
  · rw [if_pos hz, zeroFold_lookup,
      if_pos (List.mem_map.mpr ⟨(p, s), mem_priority_state_grid p s, rfl⟩), hz]
    rfl
  · rw [if_neg hz]

theorem processVarzQueue_preserves (m : List (MetricKey × Int))
    (identity : String) (tasks : List TaskData) (key : MetricKey)
    (hk : key.1 ≠ safe_name identity) :
    alookup (processVarzQueue m identity tasks) key = alookup m key := by
  unfold processVarzQueue
  rw [overlayFold_lookup _ _ _ (tally_keys_nodup _ _), tally_lookup]
  have hz : (tasks.countP fun t =>
      decide ((safe_name identity, t.priority.value, t.status.value) = key)) = 0 := by
    rw [List.countP_eq_zero]
    intro t _
    simp only [decide_eq_true_eq]
    intro heq
    exact hk (by rw [← heq])
  rw [if_pos hz, zeroFold_lookup, if_neg]
  intro hmem
  rw [List.mem_map] at hmem
  obtain ⟨x, -, hx⟩ := hmem
  exact hk (by rw [← hx])

theorem varzFold_preserves (queues : List VarzQueue)
    (m : List (MetricKey × Int)) (key : MetricKey)
    (hk : ∀ q ∈ queues, key.1 ≠ safe_name q.identity) :
    alookup (queues.foldl (fun m q =>
      processVarzQueue m q.identity q.tasks) m) key = alookup m key := by
  induction queues generalizing m with
  | nil => rfl
  | cons q qs ih =>
    rw [List.foldl_cons, ih _ (fun q' hq' => hk q' (List.mem_cons_of_mem _ hq')),
      processVarzQueue_preserves]
    exact hk q (List.mem_cons_self _ _)

theorem varzTaskMetrics_lookup (queues : List VarzQueue)
    (hn : (queues.map fun q => safe_name q.identity).Nodup)
    (q : VarzQueue) (hq : q ∈ queues) (p : TaskPriority) (s : TaskState) :
    alookup (varzTaskMetrics queues) (safe_name q.identity, p.value, s.value) =
      some ((q.tasks.countP fun t =>
        decide (t.priority = p ∧ t.status = s)) : Int) := by
  unfold varzTaskMetrics
  generalize ([] : List (MetricKey × Int)) = m0
  induction queues generalizing m0 with
  | nil => cases hq
  | cons q0 qs ih =>
    rw [List.foldl_cons]
    rcases List.mem_cons.mp hq with rfl | hmem
    · rw [varzFold_preserves]
      · exact processVarzQueue_lookup m0 q.identity q.tasks p s
      · intro q' hq' hx
        have hq0 : safe_name q.identity ∈ qs.map fun q => safe_name q.identity :=
          List.mem_map.mpr ⟨q', hq', hx.symm⟩
        exact (List.nodup_cons.mp hn).1 hq0
    · exact ih (List.nodup_cons.mp hn).2 hmem _

/-! ### Remaining helper lemmas -/

theorem alookup_mem {l : List (κ × α)} {k : κ} {v : α}
    (h : alookup l k = some v) : (k, v) ∈ l := by
  induction l with
  | nil => cases h
  | cons p ps ih =>
    by_cases hp : p.1 = k
    · rw [alookup, if_pos hp] at h
      cases Option.some.inj h
      have : (k, p.2) = p := by
        rw [← hp]
      rw [this]
      exact List.mem_cons_self _ _
    · rw [alookup, if_neg hp] at h
      exact List.mem_cons_of_mem _ (ih h)

theorem countReplica_fst (queues : List (String × Queue)) (c : String) :
    (countReplica queues c).map Prod.fst = queues.map Prod.fst := by
  unfold countReplica
  split
  · rfl
  · exact aupdate_fst _ _ _

theorem countReplicas_fst (queues : List (String × Queue))
    (clients : List String) :
    (countReplicas queues clients).map Prod.fst = queues.map Prod.fst := by
  induction clients generalizing queues with
  | nil => rfl
  | cons c cs ih =>
    rw [countReplicas, List.foldl_cons, ← countReplicas, ih, countReplica_fst]

theorem build_queues_fst (store : Store) :
    (KartonState.build store).queues.map Prod.fst =
      (initQueues store.binds).map Prod.fst := by
  show (countReplicas _ _).map Prod.fst = _
  rw [countReplicas_fst, foldl_processTask_queues_fst]

theorem build_queues_isSome (store : Store) (r : String) :
    (alookup (KartonState.build store).queues r).isSome =
      (alookup (initQueues store.binds) r).isSome := by
  apply Bool.coe_iff_coe.mp
  rw [alookup_isSome_iff, alookup_isSome_iff, build_queues_fst]

/-- C1: every task record with status ≠ FINISHED whose receiver names a
known bind is placed by the snapshot in exactly one of
`queues[receiver].tasks` (pending) or `queues[receiver].crashed`, the
choice determined solely by `status == CRASHED`; consequently the pending
and crashed lists of every queue are disjoint. -/
theorem c1_pending_crashed_partition (store : Store) (r : String)
    (td : TaskData)
    (hknown : (alookup (initQueues store.binds) r).isSome)
    (hmem : some td ∈ store.task_fetch)
    (hrecv : td.receiver = some r)
    (hnf : td.status ≠ TaskState.finished) :
    ∃ q, alookup (KartonState.build store).queues r = some q ∧
      (td.status = TaskState.crashed → td ∈ q.crashed ∧ td ∉ q.tasks) ∧
      (td.status ≠ TaskState.crashed → td ∈ q.tasks ∧ td ∉ q.crashed) ∧
      ∀ r' q', alookup (KartonState.build store).queues r' = some q' →
        ∀ t ∈ q'.tasks, t ∉ q'.crashed := by
  obtain ⟨q0, hq0⟩ := Option.isSome_iff_exists.mp hknown
  obtain ⟨q, hq, hqt, hqc⟩ := build_alookup_queues store r q0 hq0
  have hdisj : ∀ r' q',
      alookup (KartonState.build store).queues r' = some q' →
      ∀ t ∈ q'.tasks, t ∉ q'.crashed := by
    intro r' q' hq' t ht htc
    have hks : (alookup (initQueues store.binds) r').isSome := by
      rw [← build_queues_isSome, hq']
      rfl
    obtain ⟨q0', hq0'⟩ := Option.isSome_iff_exists.mp hks
    obtain ⟨q'', hq'', ht'', hc''⟩ := build_alookup_queues store r' q0' hq0'
    rw [hq'] at hq''
    cases Option.some.inj hq''
    rw [ht''] at ht
    rw [hc''] at htc
    exact (mem_pendingOf.mp ht).2.2.2 (mem_crashedOf.mp htc).2.2
  refine ⟨q, hq, ?_, ?_, hdisj⟩
  · intro hcr
    refine ⟨by rw [hqc]; exact mem_crashedOf.mpr ⟨hmem, hrecv, hcr⟩, ?_⟩
    rw [hqt]
    intro hmem'
    exact (mem_pendingOf.mp hmem').2.2.2 hcr
  · intro hncr
    refine ⟨by rw [hqt]; exact mem_pendingOf.mpr ⟨hmem, hrecv, hnf, hncr⟩, ?_⟩
    rw [hqc]
    intro hmem'
    exact hncr (mem_crashedOf.mp hmem').2.2

theorem c1_witness :
    ∃ q, alookup (KartonState.build exStore).queues "q1" = some q ∧
      (exTask1.status = TaskState.crashed →
        exTask1 ∈ q.crashed ∧ exTask1 ∉ q.tasks) ∧
      (exTask1.status ≠ TaskState.crashed →
        exTask1 ∈ q.tasks ∧ exTask1 ∉ q.crashed) ∧
      ∀ r' q', alookup (KartonState.build exStore).queues r' = some q' →
        ∀ t ∈ q'.tasks, t ∉ q'.crashed :=
  c1_pending_crashed_partition exStore "q1" exTask1 (by decide) (by decide)
    rfl (by decide)

/-- C2: a vanished record (`none` from `mget`), a record without a
`receiver` header, a FINISHED record, and a record whose receiver names
no known bind are each silently skipped: removing such a record from the
fetched list leaves the whole snapshot (queues and analyses) unchanged,
so it contributes nothing and never aborts aggregation of the rest. -/
theorem c2_skipped_records (store : Store) (pre post : List (Option TaskData))
    (x : Option TaskData)
    (hsplit : store.task_fetch = pre ++ x :: post)
    (hskip : x = none ∨ ∃ td, x = some td ∧
      (td.receiver = none ∨ td.status = TaskState.finished ∨
        ∃ r, td.receiver = some r ∧
          alookup (initQueues store.binds) r = none)) :
    KartonState.build store =
      KartonState.build { store with task_fetch := pre ++ post } := by
  have hmid : processTask (pre.foldl processTask
      { queues := initQueues store.binds, analyses := [] }) x =
      pre.foldl processTask
        { queues := initQueues store.binds, analyses := [] } := by
    apply processTask_skip
    rcases hskip with rfl | ⟨td, rfl, hcase⟩
    · exact Or.inl rfl
    · refine Or.inr ⟨td, rfl, ?_⟩
      rcases hcase with h | h | ⟨r, h1, h2⟩
      · exact Or.inl h
      · exact Or.inr (Or.inl h)
      · refine Or.inr (Or.inr ⟨r, h1, ?_⟩)
        apply alookup_eq_none_of_not_mem
        rw [foldl_processTask_queues_fst]
        intro hmemk
        have := (alookup_isSome_iff _ _).mpr hmemk
        rw [h2] at this
        cases this
  have hfold : (pre ++ x :: post).foldl processTask
      { queues := initQueues store.binds, analyses := [] } =
      (pre ++ post).foldl processTask
        { queues := initQueues store.binds, analyses := [] } := by
    rw [List.foldl_append, List.foldl_cons, hmid, ← List.foldl_append]
  have h1 : KartonState.build store =
      KartonState.build { store with task_fetch := pre ++ x :: post } := by
    rw [← hsplit]
  rw [h1]
  exact congrArg (fun st : KState =>
    KState.mk (countReplicas st.queues store.client_list) st.analyses) hfold

theorem c2_witness :
    KartonState.build exStore2 =
      KartonState.build { exStore2 with task_fetch := [some exTask1] } :=
  c2_skipped_records exStore2 [some exTask1] [] none rfl (Or.inl rfl)

/-- C3: a routed record lands exactly once in
`analyses[root_uid].queues[receiver]`; two routed records sharing a root
id but with different receivers sit under the same analysis object under
their respective queue keys; every task stored under an analysis carries
the analysis root id; and an analysis object exists iff at least one
record is routed to it (zero tasks ⇒ no object). -/
theorem c3_analysis_views (store : Store) :
    (∀ td r, store.task_fetch.count (some td) = 1 →
        td.receiver = some r → td.status ≠ TaskState.finished →
        (alookup (initQueues store.binds) r).isSome →
        ∃ a, alookup (KartonState.build store).analyses td.root_uid = some a ∧
          ((alookup a.queues r).getD []).count td = 1) ∧
    (∀ td1 td2 r1 r2, some td1 ∈ store.task_fetch →
        some td2 ∈ store.task_fetch →
        td1.root_uid = td2.root_uid →
        td1.receiver = some r1 → td2.receiver = some r2 →
        td1.status ≠ TaskState.finished → td2.status ≠ TaskState.finished →
        (alookup (initQueues store.binds) r1).isSome →
        (alookup (initQueues store.binds) r2).isSome →
        ∃ a, alookup (KartonState.build store).analyses td1.root_uid = some a ∧
          td1 ∈ (alookup a.queues r1).getD [] ∧
          td2 ∈ (alookup a.queues r2).getD []) ∧
    (∀ R a, alookup (KartonState.build store).analyses R = some a →
        a.rootid = R ∧ ∀ ql ∈ a.queues, ql.2 ≠ [] ∧
          ∀ t ∈ ql.2, t.root_uid = R) ∧
    (∀ R, (alookup (KartonState.build store).analyses R).isSome ↔
        ∃ td, some td ∈ store.task_fetch ∧ td.root_uid = R ∧
          td.status ≠ TaskState.finished ∧ ∃ r, td.receiver = some r ∧
            (alookup (initQueues store.binds) r).isSome) := by
  refine ⟨?_, ?_, ?_, ?_⟩
  · intro td r hcount hrecv hnf hknown
    have hc := build_countTask store td.root_uid r td
    rw [if_pos ⟨rfl, hrecv, hnf, hknown⟩, hcount] at hc
    obtain ⟨a, ha, -⟩ := countTask_pos_mem _ _ _ _
      (by rw [hc]; exact Nat.one_pos)
    refine ⟨a, ha, ?_⟩
    unfold KState.countTask at hc
    rw [ha] at hc
    simpa using hc
  · intro td1 td2 r1 r2 hm1 hm2 hroot hr1 hr2 hnf1 hnf2 hk1 hk2
    have hc1 := build_countTask store td1.root_uid r1 td1
    rw [if_pos ⟨rfl, hr1, hnf1, hk1⟩] at hc1
    obtain ⟨a, ha, hmem1⟩ := countTask_pos_mem _ _ _ _
      (by rw [hc1]; exact List.count_pos_iff.mpr hm1)
    have hc2 := build_countTask store td2.root_uid r2 td2
    rw [if_pos ⟨rfl, hr2, hnf2, hk2⟩] at hc2
    obtain ⟨a2, ha2, hmem2⟩ := countTask_pos_mem _ _ _ _
      (by rw [hc2]; exact List.count_pos_iff.mpr hm2)
    rw [← hroot] at ha2
    rw [ha] at ha2
    cases Option.some.inj ha2
    exact ⟨a, ha, hmem1, hmem2⟩
  · intro R a ha
    have hwf := AnalysesWF_build store (R, a) (alookup_mem ha)
    exact ⟨hwf.1, hwf.2⟩
  · intro R
    rw [build_analyses_isSome]
    constructor
    · rintro ⟨td, hmem, hroot, r, hrecv, hnf, hks⟩
      exact ⟨td, hmem, hroot, hnf, r, hrecv, hks⟩
    · rintro ⟨td, hmem, hroot, hnf, r, hrecv, hks⟩
      exact ⟨td, hmem, hroot, r, hrecv, hnf, hks⟩

theorem c3_witness :
    ∃ a, alookup (KartonState.build exStore).analyses exTask1.root_uid =
        some a ∧
      ((alookup a.queues "q1").getD []).count exTask1 = 1 :=
  (c3_analysis_views exStore).1 exTask1 "q1" (by decide) rfl (by decide)
    (by decide)

/-- C4 counterexample: the legacy `Queue.to_dict` emits the pending ids
in aggregation order (`["a", "b"]`) although the `last_update` order
descending would be `["b", "a"]`; and for two records with equal
`last_update`, `QueueView.to_dict` keeps the input order `["b", "a"]`
instead of the claimed task-id-ascending order `["a", "b"]`. -/
theorem c4_counterexample :
    (Queue.to_dict cexQueue).tasks = ["a", "b"] ∧
    (Queue.to_dict cexQueue).tasks ≠ ["b", "a"] ∧
    taskA10.last_update < taskB20.last_update ∧
    (QueueView.to_dict cexInspectQueue).tasks = ["b", "a"] ∧
    (QueueView.to_dict cexInspectQueue).tasks ≠ ["a", "b"] ∧
    taskB5.last_update = taskA5.last_update ∧
    taskA5.uid ≠ taskB5.uid ∧ strLe taskA5.uid taskB5.uid = true := by
  refine ⟨rfl, by decide, by decide, by decide, by decide, by decide,
    by decide, by decide⟩

/-- C4 amended: `QueueView.to_dict` sorts each list by `last_update`
descending; records with equal timestamps keep their relative input
order (stable sort), with no task-id tie-break; the legacy
`Queue.to_dict` emits both lists unsorted, in aggregation order. -/
theorem c4_amended_sort_contract (pending : List TaskData) (q : Queue) :
    (sortByLastUpdateDesc pending).Perm pending ∧
    (sortByLastUpdateDesc pending).Pairwise
      (fun a b => b.last_update ≤ a.last_update) ∧
    (∀ a b, a.last_update = b.last_update → [a, b].Sublist pending →
      [a, b].Sublist (sortByLastUpdateDesc pending)) ∧
    (Queue.to_dict q).tasks = q.tasks.map TaskData.uid ∧
    (Queue.to_dict q).crashed = q.crashed.map TaskData.uid := by
  haveI htot : IsTotal TaskData (fun a b => b.last_update ≤ a.last_update) :=
    ⟨fun a b => Int.le_total b.last_update a.last_update⟩
  haveI htrans : IsTrans TaskData (fun a b => b.last_update ≤ a.last_update) :=
    ⟨fun _ _ _ hab hbc => Int.le_trans hbc hab⟩
  refine ⟨List.perm_insertionSort _ _, List.sorted_insertionSort _ _, ?_,
    rfl, rfl⟩
  intro a b heq hsub
  exact List.pair_sublist_insertionSort (le_of_eq heq.symm) hsub

theorem c4_amended_witness :
    (sortByLastUpdateDesc [taskB5, taskA5]).Perm [taskB5, taskA5] :=
  (c4_amended_sort_contract [taskB5, taskA5] cexQueue).1

/-- C5: in the routing graph built from any bind and output universe on
which `build_nodes` succeeds, an edge B→A (A's identity in the consumer
set stored under B's identity) exists iff A has at least one filter whose
key/value pairs are all present in at least one of B's output
descriptors; in particular no filters or no outputs means no edge. -/
theorem c5_edge_characterization (binds : List BindRecord)
    (outputs : List OutputsObject) (nodes : List KartonNode)
    (hbuild : build_nodes binds outputs = some nodes)
    (A B : KartonNode) (hA : A ∈ nodes) (hB : B ∈ nodes) :
    A.identity ∈ (alookup (create_graph nodes) B.identity).getD [] ↔
      ∃ fs, A.filters = some fs ∧ ∃ os, B.outputs = some os ∧
        ∃ f ∈ fs, ∃ o ∈ os, ∀ kv ∈ f, kv ∈ o := by
  have hnodup := build_nodes_nodup hbuild
  rw [mem_create_graph]
  constructor
  · rintro ⟨A', hA', B', hB', hx, hb, hc⟩
    have hAeq : A' = A := List.inj_on_of_nodup_map hnodup hA' hA hx
    have hBeq : B' = B := List.inj_on_of_nodup_map hnodup hB' hB hb
    subst hAeq
    subst hBeq
    exact (contains_node_iff _ _).mp hc
  · intro h
    exact ⟨A, hA, B, hB, rfl, rfl, (contains_node_iff A B).mpr h⟩

theorem c5_witness :
    exNodeA.identity ∈
        (alookup (create_graph exNodes) exNodeB.identity).getD [] ↔
      ∃ fs, exNodeA.filters = some fs ∧ ∃ os, exNodeB.outputs = some os ∧
        ∃ f ∈ fs, ∃ o ∈ os, ∀ kv ∈ f, kv ∈ o :=
  c5_edge_characterization [exBindA] [exOutB] exNodes (by decide)
    exNodeA exNodeB (by decide) (by decide)

/-- C6: a node whose own outputs satisfy one of its own filters receives
a self-edge; the edge-construction loop does not suppress the diagonal
pair. -/
theorem c6_self_edge (nodes : List KartonNode) (A : KartonNode)
    (hA : A ∈ nodes) (hself : KartonNode.contains_node A A = true) :
    A.identity ∈ (alookup (create_graph nodes) A.identity).getD [] := by
  rw [mem_create_graph]
  exact ⟨A, hA, A, hA, rfl, rfl, hself⟩

theorem c6_witness :
    exSelfNode.identity ∈
      (alookup (create_graph [exSelfNode]) exSelfNode.identity).getD [] :=
  c6_self_edge [exSelfNode] exSelfNode (by decide) (by decide)

/-- C7: the snapshot is a pure function of the backing store, so two
computations over an unchanged store yield structurally equal results:
the same queue map, the same analysis map, the same rendered
`/api/queues` dictionaries and the same sorted task orderings (ties
included). -/
theorem c7_snapshot_deterministic (s1 s2 : Store) (h : s1 = s2) :
    KartonState.build s1 = KartonState.build s2 ∧
    get_queues_api_dict s1 = get_queues_api_dict s2 ∧
    ((KartonState.build s1).queues.map fun p =>
        (p.1, sortByLastUpdateDesc p.2.tasks,
          sortByLastUpdateDesc p.2.crashed)) =
      ((KartonState.build s2).queues.map fun p =>
        (p.1, sortByLastUpdateDesc p.2.tasks,
          sortByLastUpdateDesc p.2.crashed)) := by
  subst h
  exact ⟨rfl, rfl, rfl⟩

theorem c7_witness :
    KartonState.build exStore = KartonState.build exStore ∧
    get_queues_api_dict exStore = get_queues_api_dict exStore ∧
    ((KartonState.build exStore).queues.map fun p =>
        (p.1, sortByLastUpdateDesc p.2.tasks,
          sortByLastUpdateDesc p.2.crashed)) =
      ((KartonState.build exStore).queues.map fun p =>
        (p.1, sortByLastUpdateDesc p.2.tasks,
          sortByLastUpdateDesc p.2.crashed)) :=
  c7_snapshot_deterministic exStore exStore rfl

/-- C8 counterexample: the legacy `varz` of `src/app.py` does not
zero-initialize every `(identity, priority, status)` combination for the
known binds.  With an empty gauge registry (process start) and the known
bind `q1` holding no tasks, one legacy run exports nothing at all: every
combination of the known bind, e.g. `(safe_name "q1", high, Spawned)`,
is absent from the series (`none`) instead of being exported as `0`. -/
theorem c8_counterexample :
    (alookup (initQueues c8Store.binds) "q1").isSome = true ∧
    legacy_varz_task_metrics [] c8Store = [] ∧
    alookup (legacy_varz_task_metrics [] c8Store)
      (safe_name "q1", TaskPriority.high.value, TaskState.spawned.value) =
      none := by
  refine ⟨by decide, rfl, rfl⟩

/-- C8 amended: for the current `varz` of `karton/dashboard/app.py`,
with pairwise-distinct sanitized queue names, one run exports every
`(identity, priority, status)` combination of every known bind with
exactly the observed count, a zero-count combination included as `0`;
when two identities collide after `re.sub`, the later queue's per-queue
zero-fill and overlay replace the earlier bind's counts, so the shared
series carries only the later queue's count.  (The legacy `varz` of
`src/app.py` has neither guarantee, per the counterexample.) -/
theorem c8_amended_reset_overlay :
    (∀ (queues : List VarzQueue),
      (queues.map fun q => safe_name q.identity).Nodup →
      ∀ q ∈ queues, ∀ (p : TaskPriority) (s : TaskState),
        alookup (varzTaskMetrics queues)
            (safe_name q.identity, p.value, s.value) =
          some ((q.tasks.countP fun t =>
            decide (t.priority = p ∧ t.status = s)) : Int)) ∧
    (∀ (q1 q2 : VarzQueue),
      safe_name q1.identity = safe_name q2.identity →
      ∀ (p : TaskPriority) (s : TaskState),
        alookup (varzTaskMetrics [q1, q2])
            (safe_name q1.identity, p.value, s.value) =
          some ((q2.tasks.countP fun t =>
            decide (t.priority = p ∧ t.status = s)) : Int)) := by
  constructor
  · intro queues hn q hq p s
    exact varzTaskMetrics_lookup queues hn q hq p s
  · intro q1 q2 hcol p s
    rw [hcol]
    exact processVarzQueue_lookup
      (processVarzQueue [] q1.identity q1.tasks) q2.identity q2.tasks p s

theorem c8_amended_witness :
    alookup (varzTaskMetrics [exVarzQueue])
        (safe_name exVarzQueue.identity, TaskPriority.normal.value,
          TaskState.crashed.value) =
      some ((exVarzQueue.tasks.countP fun t =>
        decide (t.priority = TaskPriority.normal ∧
          t.status = TaskState.crashed)) : Int) :=
  c8_amended_reset_overlay.1 [exVarzQueue] (by decide) exVarzQueue
    (by decide) TaskPriority.normal TaskState.crashed

/-- C9: per-entity lookups surface NotFound rather than empty objects and
never a fatal error: an unknown queue identity yields the
queue-not-found result (never an `ok` view), an analysis whose root id
matches zero records yields the analysis-not-found result, and both
routes are total (always `ok` or `notFound`). -/
theorem c9_not_found (queues : List (String × InspectQueue))
    (queue_name : String) (analysis : InspectAnalysis) :
    (alookup queues queue_name = none →
      get_queue_api queues queue_name =
        ApiResult.notFound "Queue doesn\x27t exist") ∧
    (∀ v, get_queue_api queues queue_name = ApiResult.ok v →
      (alookup queues queue_name).isSome) ∧
    ((∃ v, get_queue_api queues queue_name = ApiResult.ok v) ∨
      ∃ e, get_queue_api queues queue_name = ApiResult.notFound e) ∧
    (analysis.tasks = [] →
      get_analysis_api analysis =
        ApiResult.notFound "Analysis doesn\x27t exist") ∧
    (∀ v, get_analysis_api analysis = ApiResult.ok v →
      analysis.tasks ≠ []) ∧
    ((∃ v, get_analysis_api analysis = ApiResult.ok v) ∨
      ∃ e, get_analysis_api analysis = ApiResult.notFound e) := by
  refine ⟨?_, ?_, ?_, ?_, ?_, ?_⟩
  · intro h
    unfold get_queue_api
    rw [h]
  · intro v h
    unfold get_queue_api at h
    cases hx : alookup queues queue_name with
    | none => rw [hx] at h; cases h
    | some u => rfl
  · unfold get_queue_api
    cases alookup queues queue_name with
    | none => exact Or.inr ⟨_, rfl⟩
    | some u => exact Or.inl ⟨_, rfl⟩
  · intro h
    unfold get_analysis_api
    rw [h]
    rfl
  · intro v h hnil
    rw [get_analysis_api, hnil] at h
    cases h
  · unfold get_analysis_api
    split
    · exact Or.inr ⟨_, rfl⟩
    · exact Or.inl ⟨_, rfl⟩

theorem c9_witness :
    get_queue_api [] "missing" = ApiResult.notFound "Queue doesn\x27t exist" ∧
    get_analysis_api exEmptyAnalysis =
      ApiResult.notFound "Analysis doesn\x27t exist" :=
  ⟨(c9_not_found [] "missing" exEmptyAnalysis).1 rfl,
    (c9_not_found [] "missing" exEmptyAnalysis).2.2.2.1 rfl⟩

/-- C10: the routing-graph builder does error on one input family the
claim covers: a bind whose identity is the empty (falsy) string passes
neither the initialization guard nor the subsequent `values[...]` access,
so `build_nodes` raises `KeyError` (embedded `none`) instead of
returning a graph; the empty universe does yield the empty graph. -/
theorem c10_empty_identity_keyerror :
    generate_graph [emptyIdentityBind] [] = none ∧
    generate_graph [] [] = some [] := by
  constructor
  · rfl
  · rfl

end Karton
